import Mathlib

/-!
Shallow embedding of the PlugData canvas/patch synchronisation core.

Sources embedded:
  * `Source/Canvas.cpp`   — `Canvas::synchronise`, `Canvas::keyPressed`,
    `Canvas::deselectAll`.
  * `Source/Pd/PdPatch.cpp` — `Patch::getObjects`, `Patch::getIndex`,
    `Patch::getConnections`, `Patch::createConnection`, `Patch::keyPress`.

Machine pointers are modelled as numbers (`ObjId` for engine objects, `bid`
for visual components).  Geometry (bounds, positions, repaints, z-order) has
no footprint on any claim and is not modelled.  `Box.cpp`, `Connection.cpp`
and `PdStorage.cpp` are not part of the excerpt; the few facts needed about
them are modelled from the spec and marked as such in their doc comments.
-/

namespace PlugData

/-- Engine-side object identity (a `t_gobj*` pointer in the source). -/
abbrev ObjId := Nat

/-- One node of the patch's `gl_list` linked list.  `isInfo` marks the
internal bookkeeping object recognised by `Storage::isInfoParent`. -/
structure GNode where
  oid : ObjId
  isInfo : Bool
deriving DecidableEq, Repr

/-- One engine connection as produced by `Patch::getConnections`:
`{t.tr_inno, t.tr_ob, t.tr_outno, t.tr_ob2}`.  Field names follow the
source: `inobj` is the line's source object (`tr_ob`), `outobj` its sink
(`tr_ob2`), `outno` the source outlet index, `inno` the sink inlet index. -/
structure ConnTuple where
  inno : Nat
  inobj : ObjId
  outno : Nat
  outobj : ObjId
deriving DecidableEq, Repr

/-- Engine-owned patch state, as visible through the Patch accessor
boundary.  `portsIn`/`portsOut` are the per-object port counts the engine
reports; `hasGui` whether an object is a GUI-style object (so its Box gets
an embedded widget); `canconnect` is `libpd_canconnect` (pd core, external
to this repository, left uninterpreted). -/
structure EngineState where
  glList : List GNode
  conns : List ConnTuple
  portsIn : ObjId → Nat
  portsOut : ObjId → Nat
  hasGui : ObjId → Bool
  canconnect : ObjId → Nat → ObjId → Nat → Bool

/-- `Patch::getObjects` (PdPatch.cpp:198): walk `gl_list` skipping the
info-parent bookkeeping node (the `onlyGui` filter is not exercised by the
canvas reconciler and is not modelled). -/
def getObjects (E : EngineState) : List ObjId :=
  (E.glList.filter (fun n => !n.isInfo)).map GNode.oid

/-- Loop of `Patch::getIndex` (PdPatch.cpp:160): counter `i` advances only
past non-info nodes; the info-parent is skipped before the comparison. -/
def getIndexAux (obj : ObjId) : List GNode → Nat → Int
  | [], _ => -1
  | y :: ys, i =>
    if y.isInfo then getIndexAux obj ys i
    else if obj = y.oid then (i : Int)
    else getIndexAux obj ys (i + 1)

/-- `Patch::getIndex`: position of `obj` among non-info nodes of `gl_list`,
or the sentinel `-1` when absent. -/
def getIndex (E : EngineState) (obj : ObjId) : Int :=
  getIndexAux obj E.glList 0

/-- `canvas_isconnected(patch, src, nout, sink, nin)` (pd core, outside this
repository): whether the engine currently has a cord from outlet `nout` of
`src` to inlet `nin` of `sink`.  Decided against the same engine connection
list that `getConnections` traverses, which is the engine's single source of
truth for cords. -/
def isconnected (E : EngineState) (src : Option ObjId) (nout : Nat)
    (sink : Option ObjId) (nin : Nat) : Bool :=
  match src, sink with
  | some s, some k =>
    E.conns.any fun t => t.inno == nin && t.inobj == s && t.outno == nout && t.outobj == k
  | _, _ => false

/-- A visual `Box` (Box.h/Box.cpp are outside the excerpt; these are exactly
the fields the Canvas code reads).  `bid` is the box's component identity
(its address in the source), `ptr` is `Box::getPointer()` — the wrapped
engine object, null while a box is still being typed into — and `gui`
whether `box->gui` is non-null.  A box's `ptr` never changes after
construction. -/
structure Box where
  bid : Nat
  ptr : Option ObjId
  gui : Bool
  numInputs : Nat
  numOutputs : Nat
deriving DecidableEq, Repr

/-- A visual `Connection`.  `inBid`/`outBid` are the pointer identities of
the `inbox` (sink) and `outbox` (source) boxes; `inPtr`/`outPtr` what
`inbox->getPointer()` / `outbox->getPointer()` return; `hasInlet` /
`hasOutlet` model the `inlet`/`outlet` edge SafePointers being non-null. -/
structure VConn where
  hasInlet : Bool
  hasOutlet : Bool
  inBid : Nat
  outBid : Nat
  inPtr : Option ObjId
  outPtr : Option ObjId
  inIdx : Nat
  outIdx : Nat
deriving DecidableEq, Repr

/-- Canvas-owned visual state: the `boxes` and `connections` OwnedArrays and
the selected-components set (`selectedComponents`, kept as the selected
boxes' component identities; no claim needs connection selection).
`nextBid` supplies fresh component identities for `new Box`. -/
structure CanvasState where
  boxes : List Box
  conns : List VConn
  selection : List Nat
  nextBid : Nat
deriving DecidableEq, Repr

/-- The `isObjectDeprecated` lambda of `Canvas::synchronise` (Canvas.cpp:143):
`std::all_of(objects, obj != obj2)` — true iff the pointer matches no object
of the snapshot.  A null pointer is deprecated. -/
def isObjectDeprecated (objects : List ObjId) (p : Option ObjId) : Bool :=
  objects.all fun o => p ≠ some o

/-- Survival condition of the first pass of `synchronise` (Canvas.cpp:153):
a visual connection is kept unless an endpoint edge pointer is null, an
endpoint box's object is deprecated, or the engine no longer reports the
cord (`canvas_isconnected` cross-check). -/
def connSurvives (E : EngineState) (objects : List ObjId) (cn : VConn) : Bool :=
  cn.hasInlet && cn.hasOutlet
    && !isObjectDeprecated objects cn.inPtr
    && !isObjectDeprecated objects cn.outPtr
    && isconnected E cn.outPtr cn.outIdx cn.inPtr cn.inIdx

/-- `Box::updatePorts` (Box.cpp is outside the excerpt).
Modelled from the spec: "update its port count (inlets/outlets may change
across a rename)" — the box's port counts are refreshed from the engine
object's current counts. -/
def updatePorts (E : EngineState) (o : ObjId) (b : Box) : Box :=
  { b with numInputs := E.portsIn o, numOutputs := E.portsOut o }

/-- `new Box(object, this)` (Box.cpp is outside the excerpt).
Modelled from the spec: a Box is a visual proxy for exactly one engine
object, with inlet/outlet edges matching the engine's port counts and an
embedded widget (`gui`) for GUI-style objects. -/
def mkNewBox (E : EngineState) (o : ObjId) (bid : Nat) : Box :=
  { bid := bid, ptr := some o, gui := E.hasGui o
    numInputs := E.portsIn o, numOutputs := E.portsOut o }

/-- Replace the first element satisfying `p`: the add-or-update pass uses
`std::find_if` and updates only the first matching box. -/
def updateFirst (p : Box → Bool) (f : Box → Box) : List Box → List Box
  | [] => []
  | b :: bs => if p b then f b :: bs else b :: updateFirst p f bs

/-- One iteration of the add-or-update pass of `synchronise`
(Canvas.cpp:184–210): look for a box wrapping `object`
(`b->getPointer() && b->getPointer() == object`); create one at the back if
none, else refresh its port count.  z-order (`toFront`, label raising) and
the `updatePosition`-gated geometry refresh are not part of the modelled
state. -/
def syncBoxStep (E : EngineState) (c : CanvasState) (o : ObjId) : CanvasState :=
  if c.boxes.any (fun b => b.ptr == some o) then
    { c with boxes := updateFirst (fun b => b.ptr == some o) (updatePorts E o) c.boxes }
  else
    { c with boxes := c.boxes ++ [mkNewBox E o c.nextBid], nextBid := c.nextBid + 1 }

/-- The whole add-or-update pass: `for (auto* object : objects)`. -/
def syncBoxes (E : EngineState) (objects : List ObjId) (c : CanvasState) : CanvasState :=
  objects.foldl (syncBoxStep E) c

/-- Sort key of the re-sort (Canvas.cpp:212–220): position of the box's
engine pointer in the canonical snapshot; `std::find` yields
`objects.size()` for a null pointer or a pointer absent from the snapshot. -/
def sortKey (objects : List ObjId) (b : Box) : Nat :=
  match b.ptr with
  | some o => objects.indexOf o
  | none => objects.length

/-- Errors of the connection-diff pass: undefined behaviour the C++ would
hit, surfaced as explicit failures in the embedding. -/
inductive SyncErr where
  /-- `boxes[n]->edges` with `n` outside the array: JUCE `operator[]` is
  bounds-checked and returns `nullptr`, and the member access (and the
  `size()` calls in the guard) dereference it. -/
  | nullBoxAccess
  /-- `srcEdges[numInputs + outno]` outside the edge array: a null `Edge*`
  is handed to the `Connection` constructor. -/
  | nullEdgeAccess
deriving DecidableEq, Repr

/-- JUCE `OwnedArray::operator[]`: bounds-checked, null for any
out-of-range index, including negative ones. -/
def arrGet (l : List Box) (i : Int) : Option Box :=
  if i < 0 then none else l.get? i.toNat

/-- The `std::find_if` predicate of the connection-diff pass
(Canvas.cpp:243–254): same inlet/outlet index and the same endpoint boxes
(pointer identity); a connection with a null edge never matches. -/
def connMatches (t : ConnTuple) (srcBid sinkBid : Nat) (cn : VConn) : Bool :=
  cn.hasInlet && cn.hasOutlet && cn.inIdx == t.inno && cn.outIdx == t.outno
    && cn.outBid == srcBid && cn.inBid == sinkBid

/-- The connection built by `new Connection(this,
srcEdges[srcBox.numInputs + outno], sinkEdges[inno], true)`: its outbox is
the source box and its inbox the sink box (Connection.cpp is outside the
excerpt; the endpoint fields are modelled from the spec's VisualConnection:
one outlet edge and one inlet edge, each owned by a box). -/
def mkVConn (t : ConnTuple) (srcBox sinkBox : Box) : VConn :=
  { hasInlet := true, hasOutlet := true
    inBid := sinkBox.bid, outBid := srcBox.bid
    inPtr := sinkBox.ptr, outPtr := srcBox.ptr
    inIdx := t.inno, outIdx := t.outno }

/-- Body of the connection-diff loop (Canvas.cpp:226–271) for one engine
tuple, in the source's order of operations: resolve the two canonical
indices, take `boxes[srcno]->edges` and `boxes[sinkno]->edges` (a null
dereference when an index is out of range — JUCE `operator[]` returns null
and the range guard only runs afterwards, testing only the upper bound),
then skip, reuse, or create.  On a match the source merely refreshes
persisted path metadata and repaints, neither of which is modelled state. -/
def connStep (E : EngineState) (c : CanvasState) (log : List String) (t : ConnTuple) :
    Except SyncErr (CanvasState × List String) :=
  let srcno := getIndex E t.inobj
  let sinkno := getIndex E t.outobj
  match arrGet c.boxes srcno, arrGet c.boxes sinkno with
  | some srcBox, some sinkBox =>
    let srcEdges := srcBox.numInputs + srcBox.numOutputs
    let sinkEdges := sinkBox.numInputs + sinkBox.numOutputs
    if srcno ≥ (c.boxes.length : Int) ∨ sinkno ≥ (c.boxes.length : Int)
        ∨ t.outno ≥ srcEdges ∨ t.inno ≥ sinkEdges then
      .ok (c, log ++ ["Error: impossible connection"])
    else if c.conns.any (connMatches t srcBox.bid sinkBox.bid) then
      .ok (c, log)
    else if srcBox.numInputs + t.outno ≥ srcEdges then
      .error .nullEdgeAccess
    else
      .ok ({ c with conns := c.conns ++ [mkVConn t srcBox sinkBox] }, log)
  | _, _ => .error .nullBoxAccess

/-- The connection-diff loop over all engine tuples, threading the canvas
state and the `logError` output. -/
def connLoop (E : EngineState) : List ConnTuple → CanvasState → List String →
    Except SyncErr (CanvasState × List String)
  | [], c, log => .ok (c, log)
  | t :: ts, c, log => do
    let (c', log') ← connStep E c log t
    connLoop E ts c' log'

/-- `deselectAll()` (Canvas.cpp:650–658): empties the selected-components
set (the repaints and the sidebar hide touch no modelled state). -/
def deselectAll (c : CanvasState) : CanvasState :=
  { c with selection := [] }

/-- First pass of `synchronise` (Canvas.cpp:153–171): remove deprecated and
stale visual connections. -/
def dropDeprecatedConns (E : EngineState) (objects : List ObjId) (c : CanvasState) :
    CanvasState :=
  { c with conns := c.conns.filter (connSurvives E objects) }

/-- Second pass of `synchronise` (Canvas.cpp:175–182): clear deleted boxes —
only a box whose `gui` is non-null and whose object is deprecated is
removed. -/
def clearDeletedBoxes (objects : List ObjId) (c : CanvasState) : CanvasState :=
  { c with boxes := c.boxes.filter fun b => !(b.gui && isObjectDeprecated objects b.ptr) }

/-- Re-sort pass of `synchronise` (Canvas.cpp:212–220): `std::sort` keyed by
canonical position.  `std::sort` is an unspecified comparison sort; with
this comparator every comparison sort produces a list sorted by
`sortKey`, modelled here by insertion sort. -/
def sortBoxes (objects : List ObjId) (c : CanvasState) : CanvasState :=
  let sorted := c.boxes.insertionSort fun b1 b2 => sortKey objects b1 ≤ sortKey objects b2
  { c with boxes := sorted }

/-- `Canvas::synchronise(updatePosition)` (Canvas.cpp:135–287).
`waitForStateUpdate`, `setCurrent`, repaints, the deferred `checkBounds`
and the `updatePosition`-gated geometry refresh act only on state outside
the model.  The returned string list is the sequence of `logError` calls. -/
def synchronise (E : EngineState) (isGraph presentationMode : Bool)
    (updatePosition : Bool) (c : CanvasState) :
    Except SyncErr (CanvasState × List String) :=
  let _ := updatePosition
  let objects := getObjects E
  let c1 := deselectAll c
  let c2 := if !(isGraph || presentationMode) then dropDeprecatedConns E objects c1 else c1
  let c3 := clearDeletedBoxes objects c2
  let c4 := syncBoxes E objects c3
  let c5 := sortBoxes objects c4
  if !(isGraph || presentationMode) then connLoop E E.conns c5 []
  else .ok (c5, [])

/-- The state-changing passes of an active (non-graph, non-presentation)
`synchronise` before the connection diff, composed. -/
def syncPipeline (E : EngineState) (c : CanvasState) : CanvasState :=
  sortBoxes (getObjects E)
    (syncBoxes E (getObjects E)
      (clearDeletedBoxes (getObjects E)
        (dropDeprecatedConns E (getObjects E) (deselectAll c))))

/-- The state-changing passes of a `synchronise` on a graph or in
presentation mode (the two connection passes are skipped). -/
def syncPipelinePassive (E : EngineState) (c : CanvasState) : CanvasState :=
  sortBoxes (getObjects E)
    (syncBoxes E (getObjects E)
      (clearDeletedBoxes (getObjects E) (deselectAll c)))

/-- `Patch::createConnection(src, nout, sink, nin)` (PdPatch.cpp:527–548):
null guard, then (on the engine thread) `libpd_canconnect` first and
`libpd_createconnection` only when it succeeds; the returned flag is the
check's result.  `libpd_createconnection` (pd core) appends the cord to the
engine's connection list. -/
def createConnection (E : EngineState) (hasPtr : Bool) (src sink : Option ObjId)
    (nout nin : Nat) : Bool × EngineState :=
  match src, sink, hasPtr with
  | some s, some k, true =>
    if E.canconnect s nout k nin then
      (true, { E with conns := E.conns ++ [⟨nin, s, nout, k⟩] })
    else
      (false, E)
  | _, _, _ => (false, E)

/-- The key codes `Canvas::keyPressed` distinguishes (JUCE `KeyPress`
constants are distinct named codes; every other code falls into `other`). -/
inductive Key where
  | left | right | up | down
  | backspace | pageUp | pageDown | home | escape | del | ret | tab
  | other (code : Int)
deriving DecidableEq, Repr

/-- Calls `Canvas::keyPressed` makes into the Patch accessor. -/
inductive EngineCall where
  /-- `patch.moveObjects(objects, dx, dy)` with the selected boxes'
  pointers — one grouped engine-side move. -/
  | moveObjects (objs : List (Option ObjId)) (dx dy : Int)
  /-- `patch.keyPress(keycode, shift)` — forwards the key to the engine's
  own `key` message path. -/
  | keyPress (k : Key) (shift : Bool)
deriving DecidableEq, Repr

/-- `Canvas::keyPressed` (Canvas.cpp:588–648): returns the JUCE "consumed"
flag together with the Patch-accessor calls made.  `selection` is the list
of `box->getPointer()` values of the selected boxes (the `moveSelection`
lambda pushes them unfiltered); the geometry refresh (`updateBounds`,
`checkBounds`) acts outside the model. -/
def keyPressed (isCurrentCanvas isGraph : Bool) (selection : List (Option ObjId))
    (shift : Bool) (k : Key) : Bool × List EngineCall :=
  if !isCurrentCanvas || isGraph then (false, [])
  else
    match k with
    | .left => (true, [.moveObjects selection (-10) 0])
    | .right => (true, [.moveObjects selection 10 0])
    | .up => (true, [.moveObjects selection 0 (-10)])
    | .down => (true, [.moveObjects selection 0 10])
    | .backspace | .pageUp | .pageDown | .home | .escape | .del | .ret | .tab =>
      (false, [])
    | .other code => (false, [.keyPress (.other code) shift])

/-- Objects of a `gl_list` suffix, skipping info nodes (the enumeration both
`getObjects` and `getIndex` follow). -/
def objsOf (l : List GNode) : List ObjId :=
  (l.filter fun n => !n.isInfo).map GNode.oid

/-- The port counts of `b` agree with what the engine reports for `o`. -/
def portsOk (E : EngineState) (o : ObjId) (b : Box) : Prop :=
  b.numInputs = E.portsIn o ∧ b.numOutputs = E.portsOut o

/-- No box of `l` has a widget while wrapping a deprecated object. -/
def guiLive (objects : List ObjId) (l : List Box) : Prop :=
  ∀ b ∈ l, ¬(b.gui = true ∧ isObjectDeprecated objects b.ptr = true)

/-- The range guard of the connection-diff pass (Canvas.cpp:237), spelled
out on the two boxes the pass already fetched. -/
abbrev tupleGuard (E : EngineState) (c : CanvasState) (t : ConnTuple)
    (srcBox sinkBox : Box) : Prop :=
  getIndex E t.inobj ≥ (c.boxes.length : Int) ∨ getIndex E t.outobj ≥ (c.boxes.length : Int)
    ∨ t.outno ≥ srcBox.numInputs + srcBox.numOutputs
    ∨ t.inno ≥ sinkBox.numInputs + sinkBox.numOutputs

/-! ### Concrete states used by witnesses -/

/-- Concrete engine: canonical objects `[10, 20, 30]` and one cord from
outlet 0 of object `20` to inlet 0 of object `30` — the spec's `[A, B, C]`
scenario.  Every object reports one inlet and one outlet and is GUI-style. -/
def egEngine : EngineState :=
  { glList := [⟨10, false⟩, ⟨20, false⟩, ⟨30, false⟩]
    conns := [⟨0, 20, 0, 30⟩]
    portsIn := fun _ => 1
    portsOut := fun _ => 1
    hasGui := fun _ => true
    canconnect := fun _ _ _ _ => true }

/-- A freshly opened canvas. -/
def egEmpty : CanvasState :=
  { boxes := [], conns := [], selection := [], nextBid := 0 }

/-- Shorthand for the boxes `synchronise` creates on `egEngine`. -/
def egBox (n : Nat) (o : ObjId) : Box :=
  { bid := n, ptr := some o, gui := true, numInputs := 1, numOutputs := 1 }

/-- The visual connection `synchronise` creates for `egEngine`'s one cord. -/
def egConn : VConn :=
  { hasInlet := true, hasOutlet := true, inBid := 2, outBid := 1
    inPtr := some 30, outPtr := some 20, inIdx := 0, outIdx := 0 }

/-- Result of synchronising the empty canvas against `egEngine`. -/
def egAfter : CanvasState :=
  { boxes := [egBox 0 10, egBox 1 20, egBox 2 30]
    conns := [egConn]
    selection := [], nextBid := 3 }

/-- A canvas holding one gui-less box that wraps an object (`99`) the engine
no longer lists. -/
def egStale : CanvasState :=
  { boxes := [{ bid := 7, ptr := some 99, gui := false, numInputs := 0, numOutputs := 0 }]
    conns := [], selection := [], nextBid := 8 }

/-- Result of synchronising `egStale` against `egEngine`: the gui-less box
survives, sorted after the three live boxes. -/
def egStaleAfter : CanvasState :=
  { boxes := [egBox 8 10, egBox 9 20, egBox 10 30,
      { bid := 7, ptr := some 99, gui := false, numInputs := 0, numOutputs := 0 }]
    conns := [{ hasInlet := true, hasOutlet := true, inBid := 10, outBid := 9
                inPtr := some 30, outPtr := some 20, inIdx := 0, outIdx := 0 }]
    selection := [], nextBid := 11 }

/-- The synchronised `[10, 20, 30]` canvas with its first box selected. -/
def egSelected : CanvasState :=
  { boxes := [egBox 0 10, egBox 1 20, egBox 2 30], conns := [egConn]
    selection := [0], nextBid := 3 }

/-- Engine whose one connection tuple names the info-parent bookkeeping node
(`77`) as its source, so the canonical-index resolution yields `-1`. -/
def egInfoEngine : EngineState :=
  { glList := [⟨10, false⟩, ⟨77, true⟩, ⟨30, false⟩]
    conns := [⟨0, 77, 0, 30⟩]
    portsIn := fun _ => 1
    portsOut := fun _ => 1
    hasGui := fun _ => true
    canconnect := fun _ _ _ _ => true }

/-! ### List helper lemmas -/

theorem updateFirst_eq_self {p : Box → Bool} {f : Box → Box} {l : List Box}
    (h : ∀ b ∈ l, p b = true → f b = b) : updateFirst p f l = l := by
  induction l with
  | nil => rfl
  | cons b bs ih =>
    simp only [updateFirst]
    by_cases hp : p b = true
    · simp [hp, h b (List.mem_cons_self b bs) hp]
    · simp only [hp, if_false, Bool.false_eq_true, if_neg]
      rw [ih fun x hx hpx => h x (List.mem_cons_of_mem b hx) hpx]

theorem mem_updateFirst {p : Box → Bool} {f : Box → Box} {l : List Box} {b : Box}
    (hb : b ∈ updateFirst p f l) : b ∈ l ∨ ∃ x ∈ l, p x = true ∧ b = f x := by
  induction l with
  | nil => simp [updateFirst] at hb
  | cons a as ih =>
    simp only [updateFirst] at hb
    by_cases hp : p a = true
    · rw [if_pos hp] at hb
      rcases List.mem_cons.mp hb with rfl | hbs
      · exact Or.inr ⟨a, List.mem_cons_self a as, hp, rfl⟩
      · exact Or.inl (List.mem_cons_of_mem a hbs)
    · rw [if_neg hp] at hb
      rcases List.mem_cons.mp hb with rfl | hbs
      · exact Or.inl (List.mem_cons_self b as)
      · rcases ih hbs with h | ⟨x, hx, hpx, hfx⟩
        · exact Or.inl (List.mem_cons_of_mem a h)
        · exact Or.inr ⟨x, List.mem_cons_of_mem a hx, hpx, hfx⟩

theorem exists_updateFirst {p : Box → Bool} {f : Box → Box} {l : List Box} {b : Box}
    (hb : b ∈ l) : ∃ x ∈ updateFirst p f l, x = b ∨ x = f b := by
  induction l with
  | nil => simp at hb
  | cons a as ih =>
    simp only [updateFirst]
    by_cases hp : p a = true
    · rw [if_pos hp]
      rcases List.mem_cons.mp hb with rfl | hbs
      · exact ⟨f b, List.mem_cons_self _ _, Or.inr rfl⟩
      · exact ⟨b, List.mem_cons_of_mem _ hbs, Or.inl rfl⟩
    · rw [if_neg hp]
      rcases List.mem_cons.mp hb with rfl | hbs
      · exact ⟨b, List.mem_cons_self _ _, Or.inl rfl⟩
      · obtain ⟨x, hx, hor⟩ := ih hbs
        exact ⟨x, List.mem_cons_of_mem _ hx, hor⟩

theorem countP_updateFirst {p : Box → Bool} {f : Box → Box} (q : Box → Bool)
    (hq : ∀ x, q (f x) = q x) (l : List Box) :
    (updateFirst p f l).countP q = l.countP q := by
  induction l with
  | nil => rfl
  | cons a as ih =>
    simp only [updateFirst]
    by_cases hp : p a = true
    · rw [if_pos hp]
      simp [List.countP_cons, hq]
    · rw [if_neg hp]
      simp [List.countP_cons, ih]

theorem updateFirst_prop {p : Box → Bool} {f : Box → Box} {l : List Box}
    (hc : l.countP p ≤ 1) (Q : Box → Prop)
    (hQ : ∀ x ∈ l, p x = true → Q (f x)) :
    ∀ b ∈ updateFirst p f l, p b = true → Q b := by
  induction l with
  | nil => simp [updateFirst]
  | cons a as ih =>
    simp only [updateFirst]
    by_cases hp : p a = true
    · rw [if_pos hp]
      intro b hb hpb
      rcases List.mem_cons.mp hb with rfl | hbs
      · exact hQ a (List.mem_cons_self a as) hp
      · exfalso
        have h1 : 0 < as.countP p := List.countP_pos_iff.mpr ⟨b, hbs, hpb⟩
        rw [List.countP_cons_of_pos _ _ hp] at hc
        omega
    · rw [if_neg hp]
      intro b hb hpb
      rcases List.mem_cons.mp hb with rfl | hbs
      · exact absurd hpb hp
      · rw [List.countP_cons_of_neg _ _ hp] at hc
        exact ih hc (fun x hx hpx => hQ x (List.mem_cons_of_mem a hx) hpx) b hbs hpb

theorem countP_nat_lt_succ {α : Type} (f : α → Nat) (j : Nat) (l : List α) :
    l.countP (fun b => decide (f b < j + 1))
      = l.countP (fun b => decide (f b < j)) + l.countP (fun b => decide (f b = j)) := by
  induction l with
  | nil => rfl
  | cons a as ih =>
    simp only [List.countP_cons, ih, decide_eq_true_eq]
    split_ifs <;> omega

theorem countP_nat_lt_ge {α : Type} (f : α → Nat) (l : List α) :
    ∀ j, (∀ m, m < j → ∃ b ∈ l, f b = m) → j ≤ l.countP (fun b => decide (f b < j))
  | 0, _ => Nat.zero_le _
  | j + 1, h => by
    rw [countP_nat_lt_succ]
    have h1 := countP_nat_lt_ge f l j fun m hm => h m (Nat.lt_succ_of_lt hm)
    have h2 : 0 < l.countP (fun b => decide (f b = j)) := by
      obtain ⟨b, hb, hfb⟩ := h j (Nat.lt_succ_self j)
      exact List.countP_pos_iff.mpr ⟨b, hb, by simp [hfb]⟩
    omega

theorem countP_nat_lt_eq {α : Type} (f : α → Nat) (l : List α) :
    ∀ j, (∀ m, m < j → l.countP (fun b => decide (f b = m)) = 1) →
      l.countP (fun b => decide (f b < j)) = j
  | 0, _ => by simp
  | j + 1, h => by
    rw [countP_nat_lt_succ, countP_nat_lt_eq f l j fun m hm => h m (Nat.lt_succ_of_lt hm),
      h j (Nat.lt_succ_self j)]

theorem sorted_nat_key_le {α : Type} (f : α → Nat) {l : List α} {N : Nat}
    (hs : l.Pairwise fun a b => f a ≤ f b)
    (hmem : ∀ m, m < N → ∃ b ∈ l, f b = m) :
    ∀ j, j < N → ∀ hj : j < l.length, f l[j] ≤ j := by
  intro j hjN hj
  by_contra hgt
  push_neg at hgt
  have hge : j + 1 ≤ l.countP (fun b => decide (f b < j + 1)) :=
    countP_nat_lt_ge f l (j + 1) fun m hm => hmem m (lt_of_lt_of_le hm hjN)
  have hdj : l.drop j = l[j] :: l.drop (j + 1) := List.drop_eq_getElem_cons hj
  have hpw : (l.drop j).Pairwise fun a b => f a ≤ f b := hs.sublist (List.drop_sublist j l)
  rw [hdj] at hpw
  have hhead := (List.pairwise_cons.mp hpw).1
  have hdrop : (l.drop j).countP (fun b => decide (f b < j + 1)) = 0 := by
    rw [List.countP_eq_zero]
    intro a ha
    rw [hdj] at ha
    simp only [decide_eq_true_eq, not_lt]
    rcases List.mem_cons.mp ha with rfl | ha'
    · omega
    · have := hhead a ha'
      omega
  have htake : (l.take j).countP (fun b => decide (f b < j + 1)) ≤ j :=
    le_trans (List.countP_le_length _) (by rw [List.length_take]; exact Nat.min_le_left _ _)
  have hcomb : l.countP (fun b => decide (f b < j + 1)) ≤ j := by
    conv_lhs => rw [← l.take_append_drop j]
    rw [List.countP_append]
    omega
  omega

theorem sorted_nat_key_eq {α : Type} (f : α → Nat) {l : List α} {N : Nat}
    (hs : l.Pairwise fun a b => f a ≤ f b)
    (hcnt : ∀ m, m < N → l.countP (fun b => decide (f b = m)) = 1) :
    ∀ j, j < N → ∀ hj : j < l.length, f l[j] = j := by
  intro j hjN hj
  have hmem : ∀ m, m < N → ∃ b ∈ l, f b = m := by
    intro m hm
    have hpos : 0 < l.countP (fun b => decide (f b = m)) := by rw [hcnt m hm]; omega
    obtain ⟨b, hb, hfb⟩ := List.countP_pos_iff.mp hpos
    exact ⟨b, hb, of_decide_eq_true hfb⟩
  have hle : f l[j] ≤ j := sorted_nat_key_le f hs hmem j hjN hj
  by_contra hne
  have hlt : f l[j] < j := lt_of_le_of_ne hle hne
  have hcnt_lt : l.countP (fun b => decide (f b < j)) = j :=
    countP_nat_lt_eq f l j fun m hm => hcnt m (lt_trans hm hjN)
  -- every element of the length-(j+1) prefix has key < j
  have hpre : ∀ a ∈ l.take (j + 1), f a < j := by
    intro a ha
    obtain ⟨i, hi, hget⟩ := List.getElem_of_mem ha
    have hi1 : i < (l.take (j + 1)).length := hi
    rw [List.length_take] at hi1
    have hij : i < j + 1 := lt_of_lt_of_le hi1 (Nat.min_le_left _ _)
    have hil : i < l.length := lt_of_lt_of_le hi1 (Nat.min_le_right _ _)
    rw [List.getElem_take] at hget
    subst hget
    rcases Nat.lt_or_ge i j with hij2 | hij2
    · have hrel : f l[i] ≤ f l[j] := List.pairwise_iff_getElem.mp hs i j hil hj hij2
      omega
    · have hij0 : i = j := by omega
      subst hij0
      omega
  have hlen : (l.take (j + 1)).length = j + 1 := by
    rw [List.length_take]
    omega
  have htake : (l.take (j + 1)).countP (fun b => decide (f b < j)) = j + 1 := by
    have hall := List.countP_eq_length.mpr
      (fun a ha => decide_eq_true (hpre a ha))
    rw [hall, hlen]
  have hcomb : j + 1 ≤ l.countP (fun b => decide (f b < j)) := by
    conv_rhs => rw [← l.take_append_drop (j + 1)]
    rw [List.countP_append]
    omega
  omega

theorem nat_key_length_ge {α : Type} (f : α → Nat) {l : List α} {N : Nat}
    (hmem : ∀ m, m < N → ∃ b ∈ l, f b = m) : N ≤ l.length :=
  le_trans (countP_nat_lt_ge f l N hmem) (List.countP_le_length _)

/-! ### Deprecation and sort-key lemmas -/

theorem isObjectDeprecated_none (objects : List ObjId) :
    isObjectDeprecated objects none = true := by
  simp [isObjectDeprecated]

theorem isObjectDeprecated_eq_false_iff {objects : List ObjId} {p : Option ObjId} :
    isObjectDeprecated objects p = false ↔ ∃ o ∈ objects, p = some o := by
  simp [isObjectDeprecated, List.all_eq_false, decide_eq_true_eq, not_not]

theorem isObjectDeprecated_some_of_mem {objects : List ObjId} {o : ObjId}
    (h : o ∈ objects) : isObjectDeprecated objects (some o) = false :=
  isObjectDeprecated_eq_false_iff.mpr ⟨o, h, rfl⟩

theorem sortKey_of_ptr_mem {objects : List ObjId} {b : Box} {o : ObjId}
    (hp : b.ptr = some o) (ho : o ∈ objects) :
    sortKey objects b = objects.indexOf o ∧ sortKey objects b < objects.length := by
  constructor
  · simp [sortKey, hp]
  · simp only [sortKey, hp]
    exact List.indexOf_lt_length.mpr ho

theorem sortKey_eq_length_of_deprecated {objects : List ObjId} {b : Box}
    (hd : isObjectDeprecated objects b.ptr = true) :
    sortKey objects b = objects.length := by
  match hb : b.ptr with
  | none => simp [sortKey, hb]
  | some o =>
    simp only [sortKey, hb]
    rw [List.indexOf_eq_length]
    intro ho
    rw [hb, isObjectDeprecated_some_of_mem ho] at hd
    exact Bool.false_ne_true hd

theorem sortKey_lt_length_iff {objects : List ObjId} {b : Box} :
    sortKey objects b < objects.length ↔ isObjectDeprecated objects b.ptr = false := by
  constructor
  · intro h
    by_contra hd
    rw [Bool.not_eq_false] at hd
    rw [sortKey_eq_length_of_deprecated hd] at h
    omega
  · intro h
    obtain ⟨o, ho, hp⟩ := isObjectDeprecated_eq_false_iff.mp h
    exact (sortKey_of_ptr_mem hp ho).2

/-- A live box's pointer is the canonical object sitting at its sort key. -/
theorem ptr_eq_of_sortKey_lt {objects : List ObjId} {b : Box}
    (h : sortKey objects b < objects.length) :
    b.ptr = some (objects.get ⟨sortKey objects b, h⟩) := by
  match hb : b.ptr with
  | none =>
    exfalso
    have hd : isObjectDeprecated objects b.ptr = true := by rw [hb]; exact isObjectDeprecated_none _
    rw [sortKey_eq_length_of_deprecated hd] at h
    omega
  | some o =>
    have ho : o ∈ objects := by
      by_contra ho
      have : sortKey objects b = objects.length := by
        simp only [sortKey, hb]
        exact List.indexOf_eq_length.mpr ho
      omega
    have hkey : sortKey objects b = objects.indexOf o := by simp [sortKey, hb]
    have hlt : objects.indexOf o < objects.length := List.indexOf_lt_length.mpr ho
    have h1 : objects.get ⟨sortKey objects b, h⟩ = o := by
      have h2 : objects.get ⟨sortKey objects b, h⟩ = objects.get ⟨objects.indexOf o, hlt⟩ := by
        congr 1
        exact Fin.ext hkey
      rw [h2]
      exact List.indexOf_get hlt
    rw [h1]

/-! ### getIndex lemmas -/

theorem getIndexAux_spec (obj : ObjId) :
    ∀ (l : List GNode) (i : Nat),
      getIndexAux obj l i =
        if obj ∈ objsOf l then ((i + (objsOf l).indexOf obj : Nat) : Int) else -1
  | [], i => by simp [getIndexAux, objsOf]
  | y :: ys, i => by
    by_cases hinfo : y.isInfo
    · have hobjs : objsOf (y :: ys) = objsOf ys := by
        simp [objsOf, List.filter_cons, hinfo]
      rw [show getIndexAux obj (y :: ys) i = getIndexAux obj ys i by
        simp [getIndexAux, hinfo]]
      rw [getIndexAux_spec obj ys i, hobjs]
    · have hobjs : objsOf (y :: ys) = y.oid :: objsOf ys := by
        simp [objsOf, List.filter_cons, hinfo]
      by_cases heq : obj = y.oid
      · rw [show getIndexAux obj (y :: ys) i = (i : Int) by
          simp [getIndexAux, hinfo, heq]]
        rw [hobjs, heq]
        simp [List.indexOf_cons_self]
      · rw [show getIndexAux obj (y :: ys) i = getIndexAux obj ys (i + 1) by
          simp [getIndexAux, hinfo, heq]]
        rw [getIndexAux_spec obj ys (i + 1), hobjs]
        have hne : y.oid ≠ obj := fun h => heq h.symm
        by_cases hmem : obj ∈ objsOf ys
        · simp only [List.mem_cons, hmem, or_true, if_true, heq, false_or]
          rw [List.indexOf_cons_ne _ hne]
          push_cast
          omega
        · have : ¬(obj ∈ y.oid :: objsOf ys) := by
            simp [hmem, heq]
          simp [hmem, this]

theorem getObjects_eq_objsOf (E : EngineState) : getObjects E = objsOf E.glList := rfl

theorem getIndex_of_mem {E : EngineState} {o : ObjId} (h : o ∈ getObjects E) :
    getIndex E o = ((getObjects E).indexOf o : Int) := by
  rw [getIndex, getIndexAux_spec, ← getObjects_eq_objsOf, if_pos h]
  push_cast
  omega

theorem getIndex_of_not_mem {E : EngineState} {o : ObjId} (h : o ∉ getObjects E) :
    getIndex E o = -1 := by
  rw [getIndex, getIndexAux_spec, ← getObjects_eq_objsOf, if_neg h]

theorem getIndex_nonneg_mem {E : EngineState} {o : ObjId}
    (h : 0 ≤ getIndex E o) : o ∈ getObjects E := by
  by_contra hmem
  rw [getIndex_of_not_mem hmem] at h
  omega

theorem getIndex_lt_length (E : EngineState) (o : ObjId) :
    getIndex E o < ((getObjects E).length : Int) := by
  by_cases h : o ∈ getObjects E
  · rw [getIndex_of_mem h]
    exact_mod_cast List.indexOf_lt_length.mpr h
  · rw [getIndex_of_not_mem h]
    have : 0 ≤ ((getObjects E).length : Int) := by positivity
    omega

/-! ### Add-or-update pass lemmas -/

theorem syncBoxes_nil (E : EngineState) (c : CanvasState) : syncBoxes E [] c = c := rfl

theorem syncBoxes_cons (E : EngineState) (o : ObjId) (os : List ObjId) (c : CanvasState) :
    syncBoxes E (o :: os) c = syncBoxes E os (syncBoxStep E c o) := rfl

theorem syncBoxStep_conns (E : EngineState) (c : CanvasState) (o : ObjId) :
    (syncBoxStep E c o).conns = c.conns ∧ (syncBoxStep E c o).selection = c.selection := by
  unfold syncBoxStep
  split <;> exact ⟨rfl, rfl⟩

theorem syncBoxes_conns (E : EngineState) (os : List ObjId) (c : CanvasState) :
    (syncBoxes E os c).conns = c.conns ∧ (syncBoxes E os c).selection = c.selection := by
  induction os generalizing c with
  | nil => exact ⟨rfl, rfl⟩
  | cons o os ih =>
    rw [syncBoxes_cons]
    obtain ⟨h1, h2⟩ := ih (syncBoxStep E c o)
    obtain ⟨h3, h4⟩ := syncBoxStep_conns E c o
    exact ⟨h1.trans h3, h2.trans h4⟩

theorem syncBoxStep_countP_ne {E : EngineState} {c : CanvasState} {o o2 : ObjId}
    (h : o2 ≠ o) :
    (syncBoxStep E c o).boxes.countP (fun b => b.ptr == some o2)
      = c.boxes.countP (fun b => b.ptr == some o2) := by
  unfold syncBoxStep
  by_cases hany : c.boxes.any (fun b => b.ptr == some o) = true
  · rw [if_pos hany]
    exact countP_updateFirst (p := fun b => b.ptr == some o) (f := updatePorts E o)
      (fun b => b.ptr == some o2) (fun x => rfl) c.boxes
  · rw [if_neg hany]
    rw [List.countP_append, List.countP_singleton]
    have : ((mkNewBox E o c.nextBid).ptr == some o2) = false := by
      simp [mkNewBox, Ne.symm h]
    rw [this]
    simp

theorem syncBoxStep_countP_self_pos {E : EngineState} {c : CanvasState} {o : ObjId}
    (h : 0 < c.boxes.countP (fun b => b.ptr == some o)) :
    (syncBoxStep E c o).boxes.countP (fun b => b.ptr == some o)
      = c.boxes.countP (fun b => b.ptr == some o) := by
  unfold syncBoxStep
  have hany : c.boxes.any (fun b => b.ptr == some o) = true := by
    obtain ⟨b, hb, hp⟩ := List.countP_pos_iff.mp h
    exact List.any_eq_true.mpr ⟨b, hb, hp⟩
  rw [if_pos hany]
  exact countP_updateFirst (p := fun b => b.ptr == some o) (f := updatePorts E o)
    (fun b => b.ptr == some o) (fun x => rfl) c.boxes

theorem syncBoxStep_countP_self_zero {E : EngineState} {c : CanvasState} {o : ObjId}
    (h : c.boxes.countP (fun b => b.ptr == some o) = 0) :
    (syncBoxStep E c o).boxes.countP (fun b => b.ptr == some o) = 1 := by
  unfold syncBoxStep
  have hany : ¬(c.boxes.any (fun b => b.ptr == some o) = true) := by
    intro hc
    obtain ⟨b, hb, hp⟩ := List.any_eq_true.mp hc
    have hpos : 0 < c.boxes.countP (fun b => b.ptr == some o) :=
      List.countP_pos_iff.mpr ⟨b, hb, hp⟩
    omega
  rw [if_neg hany]
  rw [List.countP_append, List.countP_singleton]
  have : ((mkNewBox E o c.nextBid).ptr == some o) = true := by simp [mkNewBox]
  rw [this]
  simp [h]

theorem syncBoxStep_countP_ge {E : EngineState} {c : CanvasState} (o o2 : ObjId) :
    c.boxes.countP (fun b => b.ptr == some o2)
      ≤ (syncBoxStep E c o).boxes.countP (fun b => b.ptr == some o2) := by
  by_cases h : o2 = o
  · subst h
    rcases Nat.eq_zero_or_pos (c.boxes.countP (fun b => b.ptr == some o2)) with h0 | hpos
    · rw [syncBoxStep_countP_self_zero h0, h0]
      omega
    · rw [syncBoxStep_countP_self_pos hpos]
  · rw [syncBoxStep_countP_ne h]

theorem syncBoxes_countP_stable {E : EngineState} {os : List ObjId} {o : ObjId}
    (h : o ∉ os) (c : CanvasState) :
    (syncBoxes E os c).boxes.countP (fun b => b.ptr == some o)
      = c.boxes.countP (fun b => b.ptr == some o) := by
  induction os generalizing c with
  | nil => rfl
  | cons o2 os ih =>
    rw [syncBoxes_cons]
    have hne : o ≠ o2 := fun hc => h (hc ▸ List.mem_cons_self o2 os)
    rw [ih (fun hc => h (List.mem_cons_of_mem o2 hc)) _, syncBoxStep_countP_ne hne]

theorem syncBoxes_countP_ge {E : EngineState} (os : List ObjId) (o : ObjId)
    (c : CanvasState) :
    c.boxes.countP (fun b => b.ptr == some o)
      ≤ (syncBoxes E os c).boxes.countP (fun b => b.ptr == some o) := by
  induction os generalizing c with
  | nil => exact le_refl _
  | cons o2 os ih =>
    rw [syncBoxes_cons]
    exact le_trans (syncBoxStep_countP_ge o2 o) (ih _)

theorem syncBoxes_countP_pos {E : EngineState} {os : List ObjId} (c : CanvasState) :
    ∀ o ∈ os, 0 < (syncBoxes E os c).boxes.countP (fun b => b.ptr == some o) := by
  induction os generalizing c with
  | nil => intro o ho; simp at ho
  | cons o2 os ih =>
    intro o ho
    rw [syncBoxes_cons]
    rcases List.mem_cons.mp ho with rfl | ho'
    · have hstep : 0 < (syncBoxStep E c o).boxes.countP (fun b => b.ptr == some o) := by
        rcases Nat.eq_zero_or_pos (c.boxes.countP (fun b => b.ptr == some o)) with h0 | hpos
        · rw [syncBoxStep_countP_self_zero h0]
          omega
        · rw [syncBoxStep_countP_self_pos hpos]
          exact hpos
      exact lt_of_lt_of_le hstep (syncBoxes_countP_ge os o _)
    · exact ih _ o ho'

theorem syncBoxes_countP_eq_one {E : EngineState} {os : List ObjId} {c : CanvasState}
    (hnd : os.Nodup)
    (hle : ∀ o ∈ os, c.boxes.countP (fun b => b.ptr == some o) ≤ 1) :
    ∀ o ∈ os, (syncBoxes E os c).boxes.countP (fun b => b.ptr == some o) = 1 := by
  induction os generalizing c with
  | nil => intro o ho; simp at ho
  | cons o2 os ih =>
    intro o ho
    rw [syncBoxes_cons]
    have hnd2 := (List.nodup_cons.mp hnd).2
    have hno2 := (List.nodup_cons.mp hnd).1
    rcases List.mem_cons.mp ho with rfl | ho'
    · have hstep : (syncBoxStep E c o).boxes.countP (fun b => b.ptr == some o) = 1 := by
        rcases Nat.eq_zero_or_pos (c.boxes.countP (fun b => b.ptr == some o)) with h0 | hpos
        · exact syncBoxStep_countP_self_zero h0
        · rw [syncBoxStep_countP_self_pos hpos]
          have := hle o (List.mem_cons_self o os)
          omega
      rw [syncBoxes_countP_stable hno2 _, hstep]
    · refine ih hnd2 ?_ o ho'
      intro o3 ho3
      have hne : o3 ≠ o2 := fun hc => hno2 (hc ▸ ho3)
      rw [syncBoxStep_countP_ne hne]
      exact hle o3 (List.mem_cons_of_mem o2 ho3)

theorem syncBoxStep_ports_self {E : EngineState} {c : CanvasState} {o : ObjId}
    (hle : c.boxes.countP (fun b => b.ptr == some o) ≤ 1) :
    ∀ b ∈ (syncBoxStep E c o).boxes, b.ptr = some o → portsOk E o b := by
  unfold syncBoxStep
  by_cases hany : c.boxes.any (fun b => b.ptr == some o) = true
  · rw [if_pos hany]
    intro b hb hp
    refine updateFirst_prop hle (portsOk E o) ?_ b hb (by simp [hp])
    intro x _ _
    exact ⟨rfl, rfl⟩
  · rw [if_neg hany]
    intro b hb hp
    rcases List.mem_append.mp hb with hbl | hbr
    · exfalso
      exact hany (List.any_eq_true.mpr ⟨b, hbl, by simp [hp]⟩)
    · have : b = mkNewBox E o c.nextBid := by simpa using hbr
      subst this
      exact ⟨rfl, rfl⟩

theorem syncBoxStep_ports_pres {E : EngineState} {c : CanvasState} {o o2 : ObjId}
    (hne : o2 ≠ o)
    (h : ∀ b ∈ c.boxes, b.ptr = some o2 → portsOk E o2 b) :
    ∀ b ∈ (syncBoxStep E c o).boxes, b.ptr = some o2 → portsOk E o2 b := by
  unfold syncBoxStep
  by_cases hany : c.boxes.any (fun b => b.ptr == some o) = true
  · rw [if_pos hany]
    intro b hb hp
    rcases mem_updateFirst hb with hbl | ⟨x, hx, hpx, rfl⟩
    · exact h b hbl hp
    · exfalso
      have : x.ptr = some o := by simpa using hpx
      have h2 : (updatePorts E o x).ptr = some o := this
      rw [hp] at h2
      exact hne (Option.some_injective _ h2)
  · rw [if_neg hany]
    intro b hb hp
    rcases List.mem_append.mp hb with hbl | hbr
    · exact h b hbl hp
    · exfalso
      have : b = mkNewBox E o c.nextBid := by simpa using hbr
      subst this
      have : some o = some o2 := hp
      exact hne (Option.some_injective _ this).symm

theorem syncBoxes_ports_pres {E : EngineState} {os : List ObjId} {o : ObjId}
    (hno : o ∉ os) (c : CanvasState)
    (h : ∀ b ∈ c.boxes, b.ptr = some o → portsOk E o b) :
    ∀ b ∈ (syncBoxes E os c).boxes, b.ptr = some o → portsOk E o b := by
  induction os generalizing c with
  | nil => exact h
  | cons o2 os ih =>
    rw [syncBoxes_cons]
    have hne : o ≠ o2 := fun hc => hno (hc ▸ List.mem_cons_self o2 os)
    exact ih (fun hc => hno (List.mem_cons_of_mem o2 hc)) _
      (syncBoxStep_ports_pres hne h)

theorem syncBoxes_ports {E : EngineState} {os : List ObjId} {c : CanvasState}
    (hnd : os.Nodup)
    (hle : ∀ o ∈ os, c.boxes.countP (fun b => b.ptr == some o) ≤ 1) :
    ∀ o ∈ os, ∀ b ∈ (syncBoxes E os c).boxes, b.ptr = some o → portsOk E o b := by
  induction os generalizing c with
  | nil => intro o ho; simp at ho
  | cons o2 os ih =>
    intro o ho
    rw [syncBoxes_cons]
    have hnd2 := (List.nodup_cons.mp hnd).2
    have hno2 := (List.nodup_cons.mp hnd).1
    rcases List.mem_cons.mp ho with rfl | ho'
    · exact syncBoxes_ports_pres hno2 _
        (syncBoxStep_ports_self (hle o (List.mem_cons_self o os)))
    · refine ih hnd2 ?_ o ho'
      intro o3 ho3
      have hne : o3 ≠ o2 := fun hc => hno2 (hc ▸ ho3)
      rw [syncBoxStep_countP_ne hne]
      exact hle o3 (List.mem_cons_of_mem o2 ho3)

theorem syncBoxStep_guiLive {E : EngineState} {c : CanvasState} {objects : List ObjId}
    {o : ObjId} (ho : o ∈ objects) (h : guiLive objects c.boxes) :
    guiLive objects (syncBoxStep E c o).boxes := by
  unfold syncBoxStep
  by_cases hany : c.boxes.any (fun b => b.ptr == some o) = true
  · rw [if_pos hany]
    intro b hb
    rcases mem_updateFirst hb with hbl | ⟨x, hx, _, rfl⟩
    · exact h b hbl
    · intro ⟨_, hdep⟩
      exact h x hx ⟨by assumption, hdep⟩
  · rw [if_neg hany]
    intro b hb
    rcases List.mem_append.mp hb with hbl | hbr
    · exact h b hbl
    · have : b = mkNewBox E o c.nextBid := by simpa using hbr
      subst this
      intro ⟨_, hdep⟩
      rw [show (mkNewBox E o c.nextBid).ptr = some o from rfl,
        isObjectDeprecated_some_of_mem ho] at hdep
      exact Bool.false_ne_true hdep

theorem syncBoxes_guiLive {E : EngineState} {os objects : List ObjId} {c : CanvasState}
    (hos : ∀ o ∈ os, o ∈ objects) (h : guiLive objects c.boxes) :
    guiLive objects (syncBoxes E os c).boxes := by
  induction os generalizing c with
  | nil => exact h
  | cons o2 os ih =>
    rw [syncBoxes_cons]
    exact ih (fun o ho => hos o (List.mem_cons_of_mem o2 ho))
      (syncBoxStep_guiLive (hos o2 (List.mem_cons_self o2 os)) h)

theorem syncBoxStep_old {E : EngineState} {c : CanvasState} {o : ObjId} {b : Box}
    (hb : b ∈ c.boxes) :
    ∃ b2 ∈ (syncBoxStep E c o).boxes, b2.bid = b.bid ∧ b2.ptr = b.ptr ∧ b2.gui = b.gui := by
  unfold syncBoxStep
  by_cases hany : c.boxes.any (fun b => b.ptr == some o) = true
  · rw [if_pos hany]
    obtain ⟨x, hx, hor⟩ := exists_updateFirst (p := fun b => b.ptr == some o)
      (f := updatePorts E o) hb
    refine ⟨x, hx, ?_⟩
    rcases hor with rfl | rfl
    · exact ⟨rfl, rfl, rfl⟩
    · exact ⟨rfl, rfl, rfl⟩
  · rw [if_neg hany]
    exact ⟨b, List.mem_append.mpr (Or.inl hb), rfl, rfl, rfl⟩

theorem syncBoxes_old {E : EngineState} {os : List ObjId} {c : CanvasState} {b : Box}
    (hb : b ∈ c.boxes) :
    ∃ b2 ∈ (syncBoxes E os c).boxes, b2.bid = b.bid ∧ b2.ptr = b.ptr ∧ b2.gui = b.gui := by
  induction os generalizing c b with
  | nil => exact ⟨b, hb, rfl, rfl, rfl⟩
  | cons o2 os ih =>
    rw [syncBoxes_cons]
    obtain ⟨b2, hb2, h1, h2, h3⟩ := syncBoxStep_old (o := o2) (E := E) hb
    obtain ⟨b3, hb3, h4, h5, h6⟩ := ih hb2
    exact ⟨b3, hb3, h4.trans h1, h5.trans h2, h6.trans h3⟩

/-! ### Sort pass lemmas -/

theorem sortBoxes_conns (objects : List ObjId) (c : CanvasState) :
    (sortBoxes objects c).conns = c.conns ∧ (sortBoxes objects c).selection = c.selection ∧
      (sortBoxes objects c).nextBid = c.nextBid :=
  ⟨rfl, rfl, rfl⟩

theorem sortBoxes_perm (objects : List ObjId) (c : CanvasState) :
    (sortBoxes objects c).boxes.Perm c.boxes :=
  List.perm_insertionSort _ _

theorem sortBoxes_sorted (objects : List ObjId) (c : CanvasState) :
    (sortBoxes objects c).boxes.Pairwise
      (fun b1 b2 => sortKey objects b1 ≤ sortKey objects b2) := by
  haveI ht : IsTotal Box (fun b1 b2 => sortKey objects b1 ≤ sortKey objects b2) :=
    ⟨fun a b => Nat.le_total _ _⟩
  haveI htr : IsTrans Box (fun b1 b2 => sortKey objects b1 ≤ sortKey objects b2) :=
    ⟨fun a b c hab hbc => Nat.le_trans hab hbc⟩
  exact List.sorted_insertionSort _ _

theorem sortBoxes_eq_self {objects : List ObjId} {c : CanvasState}
    (h : c.boxes.Pairwise fun b1 b2 => sortKey objects b1 ≤ sortKey objects b2) :
    sortBoxes objects c = c := by
  have h2 : c.boxes.insertionSort (fun b1 b2 => sortKey objects b1 ≤ sortKey objects b2)
      = c.boxes := List.Sorted.insertionSort_eq h
  unfold sortBoxes
  rw [h2]

/-! ### Pipeline shape -/

theorem synchronise_eq_active (E : EngineState) (u : Bool) (c : CanvasState) :
    synchronise E false false u c = connLoop E E.conns (syncPipeline E c) [] := rfl

theorem synchronise_eq_passive (E : EngineState) {g p : Bool} (u : Bool) (c : CanvasState)
    (h : (g || p) = true) :
    synchronise E g p u c = .ok (syncPipelinePassive E c, []) := by
  unfold synchronise syncPipelinePassive
  rw [h]
  rfl

/-! ### Connection-diff loop lemmas -/

theorem connStep_ok_state {E : EngineState} {c : CanvasState} {log : List String}
    {t : ConnTuple} {c2 : CanvasState} {log2 : List String}
    (h : connStep E c log t = .ok (c2, log2)) :
    c2.boxes = c.boxes ∧ c2.selection = c.selection ∧ c2.nextBid = c.nextBid := by
  simp only [connStep] at h
  rcases harr1 : arrGet c.boxes (getIndex E t.inobj) with _ | srcBox <;>
    rcases harr2 : arrGet c.boxes (getIndex E t.outobj) with _ | sinkBox <;>
    rw [harr1, harr2] at h <;> simp only [] at h
  · exact absurd h (by simp)
  · exact absurd h (by simp)
  · exact absurd h (by simp)
  · split at h
    · obtain ⟨h1, _⟩ := Prod.mk.injEq .. ▸ (Except.ok.injEq .. ▸ h)
      rw [← h1]
      exact ⟨rfl, rfl, rfl⟩
    · split at h
      · obtain ⟨h1, _⟩ := Prod.mk.injEq .. ▸ (Except.ok.injEq .. ▸ h)
        rw [← h1]
        exact ⟨rfl, rfl, rfl⟩
      · split at h
        · exact absurd h (by simp)
        · obtain ⟨h1, _⟩ := Prod.mk.injEq .. ▸ (Except.ok.injEq .. ▸ h)
          rw [← h1]
          exact ⟨rfl, rfl, rfl⟩

theorem connStep_conns {E : EngineState} {c : CanvasState} {log : List String}
    {t : ConnTuple} {c2 : CanvasState} {log2 : List String}
    (h : connStep E c log t = .ok (c2, log2)) :
    c2.conns = c.conns ∨ ∃ srcBox sinkBox,
      arrGet c.boxes (getIndex E t.inobj) = some srcBox ∧
      arrGet c.boxes (getIndex E t.outobj) = some sinkBox ∧
      c2.conns = c.conns ++ [mkVConn t srcBox sinkBox] := by
  simp only [connStep] at h
  rcases harr1 : arrGet c.boxes (getIndex E t.inobj) with _ | srcBox <;>
    rcases harr2 : arrGet c.boxes (getIndex E t.outobj) with _ | sinkBox <;>
    rw [harr1, harr2] at h <;> simp only [] at h
  · exact absurd h (by simp)
  · exact absurd h (by simp)
  · exact absurd h (by simp)
  · split at h
    · obtain ⟨h1, _⟩ := Prod.mk.injEq .. ▸ (Except.ok.injEq .. ▸ h)
      rw [← h1]
      exact Or.inl rfl
    · split at h
      · obtain ⟨h1, _⟩ := Prod.mk.injEq .. ▸ (Except.ok.injEq .. ▸ h)
        rw [← h1]
        exact Or.inl rfl
      · split at h
        · exact absurd h (by simp)
        · obtain ⟨h1, _⟩ := Prod.mk.injEq .. ▸ (Except.ok.injEq .. ▸ h)
          rw [← h1]
          exact Or.inr ⟨srcBox, sinkBox, rfl, rfl, rfl⟩

theorem connLoop_nil (E : EngineState) (c : CanvasState) (log : List String) :
    connLoop E [] c log = .ok (c, log) := rfl

theorem connLoop_cons (E : EngineState) (t : ConnTuple) (ts : List ConnTuple)
    (c : CanvasState) (log : List String) :
    connLoop E (t :: ts) c log
      = (connStep E c log t).bind fun r => connLoop E ts r.1 r.2 := rfl

theorem connLoop_state {E : EngineState} :
    ∀ {ts : List ConnTuple} {c : CanvasState} {log : List String} {c2 : CanvasState}
      {log2 : List String}, connLoop E ts c log = .ok (c2, log2) →
      c2.boxes = c.boxes ∧ c2.selection = c.selection ∧ c2.nextBid = c.nextBid := by
  intro ts
  induction ts with
  | nil =>
    intro c log c2 log2 h
    rw [connLoop_nil] at h
    obtain ⟨h1, _⟩ := Prod.mk.injEq .. ▸ (Except.ok.injEq .. ▸ h)
    rw [← h1]
    exact ⟨rfl, rfl, rfl⟩
  | cons t ts ih =>
    intro c log c2 log2 h
    rw [connLoop_cons] at h
    cases hstep : connStep E c log t with
    | error e =>
      rw [hstep] at h
      exact absurd h (by simp [Except.bind])
    | ok pair =>
      obtain ⟨cm, logm⟩ := pair
      rw [hstep] at h
      simp only [Except.bind] at h
      obtain ⟨h1, h2, h3⟩ := ih h
      obtain ⟨h4, h5, h6⟩ := connStep_ok_state hstep
      exact ⟨h1.trans h4, h2.trans h5, h3.trans h6⟩

theorem connLoop_conns_mono {E : EngineState} :
    ∀ {ts : List ConnTuple} {c : CanvasState} {log : List String} {c2 : CanvasState}
      {log2 : List String}, connLoop E ts c log = .ok (c2, log2) →
      ∀ cn ∈ c.conns, cn ∈ c2.conns := by
  intro ts
  induction ts with
  | nil =>
    intro c log c2 log2 h
    rw [connLoop_nil] at h
    obtain ⟨h1, _⟩ := Prod.mk.injEq .. ▸ (Except.ok.injEq .. ▸ h)
    rw [← h1]
    exact fun cn hcn => hcn
  | cons t ts ih =>
    intro c log c2 log2 h cn hcn
    rw [connLoop_cons] at h
    cases hstep : connStep E c log t with
    | error e =>
      rw [hstep] at h
      exact absurd h (by simp [Except.bind])
    | ok pair =>
      obtain ⟨cm, logm⟩ := pair
      rw [hstep] at h
      simp only [Except.bind] at h
      refine ih h cn ?_
      rcases connStep_conns hstep with heq | ⟨sb, kb, _, _, happ⟩
      · rw [heq]
        exact hcn
      · rw [happ]
        exact List.mem_append.mpr (Or.inl hcn)

theorem connLoop_conns_src {E : EngineState} :
    ∀ {ts : List ConnTuple} {c : CanvasState} {log : List String} {c2 : CanvasState}
      {log2 : List String}, connLoop E ts c log = .ok (c2, log2) →
      ∀ cn ∈ c2.conns, cn ∈ c.conns ∨ ∃ t ∈ ts, ∃ srcBox sinkBox,
        arrGet c.boxes (getIndex E t.inobj) = some srcBox ∧
        arrGet c.boxes (getIndex E t.outobj) = some sinkBox ∧
        cn = mkVConn t srcBox sinkBox := by
  intro ts
  induction ts with
  | nil =>
    intro c log c2 log2 h
    rw [connLoop_nil] at h
    obtain ⟨h1, _⟩ := Prod.mk.injEq .. ▸ (Except.ok.injEq .. ▸ h)
    rw [← h1]
    exact fun cn hcn => Or.inl hcn
  | cons t ts ih =>
    intro c log c2 log2 h cn hcn
    rw [connLoop_cons] at h
    cases hstep : connStep E c log t with
    | error e =>
      rw [hstep] at h
      exact absurd h (by simp [Except.bind])
    | ok pair =>
      obtain ⟨cm, logm⟩ := pair
      rw [hstep] at h
      simp only [Except.bind] at h
      obtain ⟨hbox, _, _⟩ := connStep_ok_state hstep
      rcases ih h cn hcn with hmem | ⟨t2, ht2, sb, kb, ha1, ha2, hcn2⟩
      · rcases connStep_conns hstep with heq | ⟨sb, kb, ha1, ha2, happ⟩
        · rw [heq] at hmem
          exact Or.inl hmem
        · rw [happ] at hmem
          rcases List.mem_append.mp hmem with hml | hmr
          · exact Or.inl hml
          · have : cn = mkVConn t sb kb := by simpa using hmr
            exact Or.inr ⟨t, List.mem_cons_self t ts, sb, kb, ha1, ha2, this⟩
      · rw [hbox] at ha1 ha2
        exact Or.inr ⟨t2, List.mem_cons_of_mem t ht2, sb, kb, ha1, ha2, hcn2⟩

theorem connMatches_mkVConn (t : ConnTuple) (srcBox sinkBox : Box) :
    connMatches t srcBox.bid sinkBox.bid (mkVConn t srcBox sinkBox) = true := by
  simp [connMatches, mkVConn]

theorem connStep_cases {E : EngineState} {c : CanvasState} {log : List String}
    {t : ConnTuple} {c2 : CanvasState} {log2 : List String}
    (h : connStep E c log t = .ok (c2, log2)) :
    ∃ srcBox sinkBox,
      arrGet c.boxes (getIndex E t.inobj) = some srcBox ∧
      arrGet c.boxes (getIndex E t.outobj) = some sinkBox ∧
      ((tupleGuard E c t srcBox sinkBox ∧ c2 = c
          ∧ log2 = log ++ ["Error: impossible connection"])
        ∨ (¬tupleGuard E c t srcBox sinkBox
          ∧ c.conns.any (connMatches t srcBox.bid sinkBox.bid) = true
          ∧ c2 = c ∧ log2 = log)
        ∨ (¬tupleGuard E c t srcBox sinkBox
          ∧ ¬(c.conns.any (connMatches t srcBox.bid sinkBox.bid) = true)
          ∧ c2 = { c with conns := c.conns ++ [mkVConn t srcBox sinkBox] }
          ∧ log2 = log)) := by
  simp only [connStep] at h
  rcases harr1 : arrGet c.boxes (getIndex E t.inobj) with _ | srcBox <;>
    rcases harr2 : arrGet c.boxes (getIndex E t.outobj) with _ | sinkBox <;>
    rw [harr1, harr2] at h <;> simp only [] at h
  · exact absurd h (by simp)
  · exact absurd h (by simp)
  · exact absurd h (by simp)
  · refine ⟨srcBox, sinkBox, rfl, rfl, ?_⟩
    split at h
    · obtain ⟨h1, h2⟩ := Prod.mk.injEq .. ▸ (Except.ok.injEq .. ▸ h)
      exact Or.inl ⟨by assumption, h1.symm, h2.symm⟩
    · split at h
      · obtain ⟨h1, h2⟩ := Prod.mk.injEq .. ▸ (Except.ok.injEq .. ▸ h)
        exact Or.inr (Or.inl ⟨by assumption, by assumption, h1.symm, h2.symm⟩)
      · split at h
        · exact absurd h (by simp)
        · obtain ⟨h1, h2⟩ := Prod.mk.injEq .. ▸ (Except.ok.injEq .. ▸ h)
          refine Or.inr (Or.inr ⟨by assumption, by assumption, h1.symm, h2.symm⟩)

theorem connStep_replay_guard {E : EngineState} {c c2 : CanvasState} {t : ConnTuple}
    {srcBox sinkBox : Box}
    (hbox : c2.boxes = c.boxes)
    (harr1 : arrGet c.boxes (getIndex E t.inobj) = some srcBox)
    (harr2 : arrGet c.boxes (getIndex E t.outobj) = some sinkBox)
    (hg : tupleGuard E c t srcBox sinkBox) (log0 : List String) :
    connStep E c2 log0 t = .ok (c2, log0 ++ ["Error: impossible connection"]) := by
  simp only [connStep]
  rw [hbox, harr1, harr2]
  simp only []
  rw [if_pos hg]

theorem connStep_replay_matched {E : EngineState} {c c2 : CanvasState} {t : ConnTuple}
    {srcBox sinkBox : Box}
    (hbox : c2.boxes = c.boxes)
    (harr1 : arrGet c.boxes (getIndex E t.inobj) = some srcBox)
    (harr2 : arrGet c.boxes (getIndex E t.outobj) = some sinkBox)
    (hg : ¬tupleGuard E c t srcBox sinkBox)
    (hm : c2.conns.any (connMatches t srcBox.bid sinkBox.bid) = true) (log0 : List String) :
    connStep E c2 log0 t = .ok (c2, log0) := by
  simp only [connStep]
  rw [hbox, harr1, harr2]
  simp only []
  rw [if_neg hg, if_pos hm]

/-- Re-running the connection-diff loop from its own result changes nothing
and reproduces the same error log. -/
theorem connLoop_refix {E : EngineState} :
    ∀ {ts : List ConnTuple} {c : CanvasState} {log : List String} {c2 : CanvasState}
      {log2 : List String}, connLoop E ts c log = .ok (c2, log2) →
      ∃ dl, log2 = log ++ dl ∧ ∀ log0, connLoop E ts c2 log0 = .ok (c2, log0 ++ dl) := by
  intro ts
  induction ts with
  | nil =>
    intro c log c2 log2 h
    rw [connLoop_nil] at h
    obtain ⟨h1, h2⟩ := Prod.mk.injEq .. ▸ (Except.ok.injEq .. ▸ h)
    subst h1
    subst h2
    exact ⟨[], by simp, fun log0 => by rw [connLoop_nil]; simp⟩
  | cons t ts ih =>
    intro c log c2 log2 h
    rw [connLoop_cons] at h
    cases hstep : connStep E c log t with
    | error e =>
      rw [hstep] at h
      exact absurd h (by simp [Except.bind])
    | ok pair =>
      obtain ⟨cm, logm⟩ := pair
      rw [hstep] at h
      simp only [Except.bind] at h
      obtain ⟨dl, hl, hrr⟩ := ih h
      obtain ⟨hbox2, _, _⟩ := connLoop_state h
      obtain ⟨srcBox, sinkBox, harr1, harr2, hcase⟩ := connStep_cases hstep
      rcases hcase with ⟨hg, rfl, rfl⟩ | ⟨hg, hm, rfl, rfl⟩ | ⟨hg, hm, hcm, rfl⟩
      · -- guard-skip: the same error is logged again
        refine ⟨"Error: impossible connection" :: dl, by rw [hl]; simp, fun log0 => ?_⟩
        rw [connLoop_cons,
          connStep_replay_guard hbox2 harr1 harr2 hg log0]
        simp only [Except.bind]
        rw [hrr (log0 ++ ["Error: impossible connection"])]
        simp
      · -- a matching connection existed and still exists
        have hm2 : c2.conns.any (connMatches t srcBox.bid sinkBox.bid) = true := by
          obtain ⟨cn, hcn, hmt⟩ := List.any_eq_true.mp hm
          exact List.any_eq_true.mpr ⟨cn, connLoop_conns_mono h cn hcn, hmt⟩
        refine ⟨dl, hl, fun log0 => ?_⟩
        rw [connLoop_cons, connStep_replay_matched hbox2 harr1 harr2 hg hm2 log0]
        simp only [Except.bind]
        exact hrr log0
      · -- freshly added connection: it now matches
        have hnew : mkVConn t srcBox sinkBox ∈ cm.conns := by
          rw [hcm]
          simp
        have hm2 : c2.conns.any (connMatches t srcBox.bid sinkBox.bid) = true :=
          List.any_eq_true.mpr ⟨mkVConn t srcBox sinkBox,
            connLoop_conns_mono h _ hnew, connMatches_mkVConn t srcBox sinkBox⟩
        have hbox3 : c2.boxes = c.boxes := by
          rw [hbox2, hcm]
        refine ⟨dl, hl, fun log0 => ?_⟩
        rw [connLoop_cons, connStep_replay_matched hbox3 harr1 harr2 hg hm2 log0]
        simp only [Except.bind]
        exact hrr log0

/-! ### Stage identity and position lemmas -/

theorem arrGet_some_iff {l : List Box} {i : Int} {b : Box} :
    arrGet l i = some b ↔ 0 ≤ i ∧ ∃ h : i.toNat < l.length, l.get ⟨i.toNat, h⟩ = b := by
  unfold arrGet
  by_cases hneg : i < 0
  · rw [if_pos hneg]
    constructor
    · intro hc
      exact absurd hc (by simp)
    · rintro ⟨h1, _⟩
      omega
  · rw [if_neg hneg]
    rw [List.get?_eq_some]
    constructor
    · rintro ⟨h1, h2⟩
      exact ⟨by omega, h1, h2⟩
    · rintro ⟨_, h1, h2⟩
      exact ⟨h1, h2⟩

theorem updatePorts_id {E : EngineState} {o : ObjId} {b : Box} (h : portsOk E o b) :
    updatePorts E o b = b := by
  obtain ⟨h1, h2⟩ := h
  cases b
  simp only [updatePorts]
  simp_all

theorem deselectAll_id {c : CanvasState} (h : c.selection = []) : deselectAll c = c := by
  cases c
  simp only [deselectAll]
  simp_all

theorem dropDeprecatedConns_id {E : EngineState} {objects : List ObjId} {c : CanvasState}
    (h : ∀ cn ∈ c.conns, connSurvives E objects cn = true) :
    dropDeprecatedConns E objects c = c := by
  have h2 : c.conns.filter (connSurvives E objects) = c.conns := List.filter_eq_self.mpr h
  cases c
  simp only [dropDeprecatedConns] at h2 ⊢
  simp_all

theorem clearDeletedBoxes_id {objects : List ObjId} {c : CanvasState}
    (h : ∀ b ∈ c.boxes, ¬(b.gui = true ∧ isObjectDeprecated objects b.ptr = true)) :
    clearDeletedBoxes objects c = c := by
  have h2 : c.boxes.filter (fun b => !(b.gui && isObjectDeprecated objects b.ptr)) = c.boxes := by
    refine List.filter_eq_self.mpr ?_
    intro b hb
    have := h b hb
    simp only [Bool.not_eq_true']
    rw [Bool.and_eq_false_iff]
    by_cases hg : b.gui = true
    · right
      by_contra hd
      rw [Bool.not_eq_false] at hd
      exact this ⟨hg, hd⟩
    · left
      exact Bool.not_eq_true _ ▸ hg
  cases c
  simp only [clearDeletedBoxes] at h2 ⊢
  simp_all

theorem syncBoxes_id {E : EngineState} :
    ∀ {os : List ObjId} {c : CanvasState},
      (∀ o ∈ os, ∃ b ∈ c.boxes, b.ptr = some o) →
      (∀ o ∈ os, ∀ b ∈ c.boxes, b.ptr = some o → portsOk E o b) →
      syncBoxes E os c = c := by
  intro os
  induction os with
  | nil => intro c _ _; rfl
  | cons o os ih =>
    intro c hex hports
    rw [syncBoxes_cons]
    have hstep : syncBoxStep E c o = c := by
      unfold syncBoxStep
      obtain ⟨b, hb, hp⟩ := hex o (List.mem_cons_self o os)
      have hany : c.boxes.any (fun b => b.ptr == some o) = true :=
        List.any_eq_true.mpr ⟨b, hb, by simp [hp]⟩
      rw [if_pos hany]
      have hupd : updateFirst (fun b => b.ptr == some o) (updatePorts E o) c.boxes
          = c.boxes := by
        refine updateFirst_eq_self ?_
        intro x hx hpx
        exact updatePorts_id (hports o (List.mem_cons_self o os) x hx (by simpa using hpx))
      rw [hupd]
    rw [hstep]
    exact ih (fun o2 ho2 => hex o2 (List.mem_cons_of_mem o ho2))
      (fun o2 ho2 => hports o2 (List.mem_cons_of_mem o ho2))

theorem syncBoxes_countP_le_one {E : EngineState} :
    ∀ {os : List ObjId} {c : CanvasState},
      (∀ o ∈ os, c.boxes.countP (fun b => b.ptr == some o) ≤ 1) →
      ∀ o ∈ os, (syncBoxes E os c).boxes.countP (fun b => b.ptr == some o) ≤ 1 := by
  intro os
  induction os with
  | nil => intro c _ o ho; simp at ho
  | cons o2 os ih =>
    intro c hle o ho
    rw [syncBoxes_cons]
    have hstep2 : (syncBoxStep E c o2).boxes.countP (fun b => b.ptr == some o2) ≤ 1 := by
      rcases Nat.eq_zero_or_pos (c.boxes.countP (fun b => b.ptr == some o2)) with h0 | hpos
      · rw [syncBoxStep_countP_self_zero h0]
      · rw [syncBoxStep_countP_self_pos hpos]
        exact hle o2 (List.mem_cons_self o2 os)
    have hle2 : ∀ o3 ∈ os, (syncBoxStep E c o2).boxes.countP (fun b => b.ptr == some o3) ≤ 1 := by
      intro o3 ho3
      by_cases heq : o3 = o2
      · subst heq
        exact hstep2
      · rw [syncBoxStep_countP_ne heq]
        exact hle o3 (List.mem_cons_of_mem o2 ho3)
    rcases List.mem_cons.mp ho with rfl | ho'
    · by_cases hin : o ∈ os
      · exact ih hle2 o hin
      · rw [syncBoxes_countP_stable hin]
        exact hstep2
    · exact ih hle2 o ho'

theorem countP_key_eq_ptr {objects : List ObjId} (hnd : objects.Nodup) {l : List Box}
    {m : Nat} (hm : m < objects.length) :
    l.countP (fun b => decide (sortKey objects b = m))
      = l.countP (fun b => b.ptr == some (objects.get ⟨m, hm⟩)) := by
  refine List.countP_congr ?_
  intro b _
  simp only [decide_eq_true_eq, beq_iff_eq]
  constructor
  · intro hkey
    have hlt : sortKey objects b < objects.length := by omega
    have hp := ptr_eq_of_sortKey_lt hlt
    rw [hp]
    congr 1
    congr 1
    exact Fin.ext hkey
  · intro hp
    have hk : sortKey objects b = objects.indexOf (objects.get ⟨m, hm⟩) := by
      simp [sortKey, hp]
    rw [hk]
    have := List.get_indexOf hnd ⟨m, hm⟩
    simpa using this

/-- In a canvas whose boxes are sorted by canonical key and hold exactly one
box per live object, position `j` holds the box of canonical object `j`. -/
theorem sorted_pos_ptr {objects : List ObjId} {l : List Box} (hnd : objects.Nodup)
    (hs : l.Pairwise fun b1 b2 => sortKey objects b1 ≤ sortKey objects b2)
    (hcnt : ∀ o ∈ objects, l.countP (fun b => b.ptr == some o) = 1) :
    ∀ j (hjN : j < objects.length) (hj : j < l.length),
      (l.get ⟨j, hj⟩).ptr = some (objects.get ⟨j, hjN⟩) := by
  intro j hjN hj
  have hkeycnt : ∀ m, m < objects.length →
      l.countP (fun b => decide (sortKey objects b = m)) = 1 := by
    intro m hm
    rw [countP_key_eq_ptr hnd hm]
    exact hcnt _ (List.get_mem objects m hm)
  have hkey : sortKey objects (l.get ⟨j, hj⟩) = j := by
    have := sorted_nat_key_eq (sortKey objects) hs hkeycnt j hjN hj
    simpa using this
  have hlt : sortKey objects (l.get ⟨j, hj⟩) < objects.length := by omega
  have hp := ptr_eq_of_sortKey_lt hlt
  rw [hp]
  congr 1
  congr 1
  exact Fin.ext hkey

/-! ### Facts about the composed pipeline -/

theorem syncPipeline_conns (E : EngineState) (c : CanvasState) :
    (syncPipeline E c).conns = c.conns.filter (connSurvives E (getObjects E))
      ∧ (syncPipeline E c).selection = [] := by
  unfold syncPipeline
  obtain ⟨h1, h2⟩ := syncBoxes_conns E (getObjects E)
    (clearDeletedBoxes (getObjects E) (dropDeprecatedConns E (getObjects E) (deselectAll c)))
  exact ⟨h1, h2⟩

theorem syncPipeline_perm (E : EngineState) (c : CanvasState) :
    (syncPipeline E c).boxes.Perm
      (syncBoxes E (getObjects E)
        (clearDeletedBoxes (getObjects E)
          (dropDeprecatedConns E (getObjects E) (deselectAll c)))).boxes :=
  sortBoxes_perm _ _

theorem syncPipeline_sorted (E : EngineState) (c : CanvasState) :
    (syncPipeline E c).boxes.Pairwise
      (fun b1 b2 => sortKey (getObjects E) b1 ≤ sortKey (getObjects E) b2) :=
  sortBoxes_sorted _ _

theorem syncPipeline_exists (E : EngineState) (c : CanvasState) :
    ∀ o ∈ getObjects E, ∃ b ∈ (syncPipeline E c).boxes, b.ptr = some o := by
  intro o ho
  have hpos := syncBoxes_countP_pos (E := E)
    (clearDeletedBoxes (getObjects E) (dropDeprecatedConns E (getObjects E) (deselectAll c)))
    o ho
  have hperm := syncPipeline_perm E c
  rw [← hperm.countP_eq] at hpos
  obtain ⟨b, hb, hp⟩ := List.countP_pos_iff.mp hpos
  exact ⟨b, hb, by simpa using hp⟩

theorem syncPipeline_guiLive (E : EngineState) (c : CanvasState) :
    guiLive (getObjects E) (syncPipeline E c).boxes := by
  have hbase : guiLive (getObjects E)
      (clearDeletedBoxes (getObjects E) (dropDeprecatedConns E (getObjects E)
        (deselectAll c))).boxes := by
    intro b hb
    have hf := (List.mem_filter.mp hb).2
    intro ⟨hg, hd⟩
    rw [hg, hd] at hf
    simp at hf
  have hS := syncBoxes_guiLive (E := E) (fun o ho => ho) hbase
  intro b hb
  exact hS b ((syncPipeline_perm E c).mem_iff.mp hb)

theorem syncPipeline_countP_le (E : EngineState) (c : CanvasState)
    (hU : ∀ o ∈ getObjects E, c.boxes.countP (fun b => b.ptr == some o) ≤ 1) :
    ∀ o ∈ getObjects E,
      (syncPipeline E c).boxes.countP (fun b => b.ptr == some o) ≤ 1 := by
  intro o ho
  have hbase : ∀ o2 ∈ getObjects E,
      (clearDeletedBoxes (getObjects E) (dropDeprecatedConns E (getObjects E)
        (deselectAll c))).boxes.countP (fun b => b.ptr == some o2) ≤ 1 := by
    intro o2 ho2
    refine le_trans ?_ (hU o2 ho2)
    rw [show (clearDeletedBoxes (getObjects E) (dropDeprecatedConns E (getObjects E)
      (deselectAll c))).boxes = c.boxes.filter
        (fun b => !(b.gui && isObjectDeprecated (getObjects E) b.ptr)) from rfl]
    rw [List.countP_filter]
    exact List.countP_mono_left fun x _ h => by
      rw [Bool.and_eq_true] at h
      exact h.1
  rw [(syncPipeline_perm E c).countP_eq]
  exact syncBoxes_countP_le_one hbase o ho

theorem syncPipeline_countP_one (E : EngineState) (c : CanvasState)
    (hnd : (getObjects E).Nodup)
    (hU : ∀ o ∈ getObjects E, c.boxes.countP (fun b => b.ptr == some o) ≤ 1) :
    ∀ o ∈ getObjects E,
      (syncPipeline E c).boxes.countP (fun b => b.ptr == some o) = 1 := by
  intro o ho
  have hbase : ∀ o2 ∈ getObjects E,
      (clearDeletedBoxes (getObjects E) (dropDeprecatedConns E (getObjects E)
        (deselectAll c))).boxes.countP (fun b => b.ptr == some o2) ≤ 1 := by
    intro o2 ho2
    refine le_trans ?_ (hU o2 ho2)
    rw [show (clearDeletedBoxes (getObjects E) (dropDeprecatedConns E (getObjects E)
      (deselectAll c))).boxes = c.boxes.filter
        (fun b => !(b.gui && isObjectDeprecated (getObjects E) b.ptr)) from rfl]
    rw [List.countP_filter]
    exact List.countP_mono_left fun x _ h => by
      rw [Bool.and_eq_true] at h
      exact h.1
  rw [(syncPipeline_perm E c).countP_eq]
  exact syncBoxes_countP_eq_one hnd hbase o ho

theorem syncPipeline_key_exists (E : EngineState) (c : CanvasState)
    (hnd : (getObjects E).Nodup) :
    ∀ m, m < (getObjects E).length →
      ∃ b ∈ (syncPipeline E c).boxes, sortKey (getObjects E) b = m := by
  intro m hm
  obtain ⟨b, hb, hp⟩ := syncPipeline_exists E c ((getObjects E).get ⟨m, hm⟩)
    (List.get_mem _ m hm)
  refine ⟨b, hb, ?_⟩
  have hk : sortKey (getObjects E) b = (getObjects E).indexOf ((getObjects E).get ⟨m, hm⟩) := by
    simp [sortKey, hp]
  rw [hk]
  have := List.get_indexOf hnd ⟨m, hm⟩
  simpa using this

theorem syncPipeline_length (E : EngineState) (c : CanvasState)
    (hnd : (getObjects E).Nodup) :
    (getObjects E).length ≤ (syncPipeline E c).boxes.length :=
  nat_key_length_ge (sortKey (getObjects E)) (syncPipeline_key_exists E c hnd)

/-- Positions below the canonical count hold live boxes. -/
theorem syncPipeline_live_at (E : EngineState) (c : CanvasState)
    (hnd : (getObjects E).Nodup) :
    ∀ j (_ : j < (getObjects E).length) (hj : j < (syncPipeline E c).boxes.length),
      isObjectDeprecated (getObjects E) ((syncPipeline E c).boxes.get ⟨j, hj⟩).ptr = false := by
  intro j hjN hj
  have hle := sorted_nat_key_le (sortKey (getObjects E)) (syncPipeline_sorted E c)
    (syncPipeline_key_exists E c hnd) j hjN hj
  rw [← sortKey_lt_length_iff]
  have : sortKey (getObjects E) ((syncPipeline E c).boxes.get ⟨j, hj⟩)
      = sortKey (getObjects E) ((syncPipeline E c).boxes[j]) := rfl
  omega

/-- With the uniqueness invariant, position `j` holds exactly canonical
object `j`. -/
theorem syncPipeline_pos_ptr (E : EngineState) (c : CanvasState)
    (hnd : (getObjects E).Nodup)
    (hU : ∀ o ∈ getObjects E, c.boxes.countP (fun b => b.ptr == some o) ≤ 1) :
    ∀ j (hjN : j < (getObjects E).length) (hj : j < (syncPipeline E c).boxes.length),
      ((syncPipeline E c).boxes.get ⟨j, hj⟩).ptr = some ((getObjects E).get ⟨j, hjN⟩) :=
  sorted_pos_ptr hnd (syncPipeline_sorted E c) (syncPipeline_countP_one E c hnd hU)

theorem syncPipeline_ports (E : EngineState) (c : CanvasState)
    (hnd : (getObjects E).Nodup)
    (hU : ∀ o ∈ getObjects E, c.boxes.countP (fun b => b.ptr == some o) ≤ 1) :
    ∀ o ∈ getObjects E, ∀ b ∈ (syncPipeline E c).boxes, b.ptr = some o → portsOk E o b := by
  intro o ho b hb hp
  have hbase : ∀ o2 ∈ getObjects E,
      (clearDeletedBoxes (getObjects E) (dropDeprecatedConns E (getObjects E)
        (deselectAll c))).boxes.countP (fun b => b.ptr == some o2) ≤ 1 := by
    intro o2 ho2
    refine le_trans ?_ (hU o2 ho2)
    rw [show (clearDeletedBoxes (getObjects E) (dropDeprecatedConns E (getObjects E)
      (deselectAll c))).boxes = c.boxes.filter
        (fun b => !(b.gui && isObjectDeprecated (getObjects E) b.ptr)) from rfl]
    rw [List.countP_filter]
    exact List.countP_mono_left fun x _ h => by
      rw [Bool.and_eq_true] at h
      exact h.1
  exact syncBoxes_ports hnd hbase o ho b ((syncPipeline_perm E c).mem_iff.mp hb) hp

theorem getIndex_toNat {E : EngineState} {o : ObjId} (h : 0 ≤ getIndex E o) :
    ∃ hlt : (getIndex E o).toNat < (getObjects E).length,
      (getObjects E).get ⟨(getIndex E o).toNat, hlt⟩ = o := by
  have hm := getIndex_nonneg_mem h
  have hlt := List.indexOf_lt_length.mpr hm
  have heq : (getIndex E o).toNat = (getObjects E).indexOf o := by
    rw [getIndex_of_mem hm]
    simp
  refine ⟨by omega, ?_⟩
  have hgoal : (getObjects E).get ⟨(getIndex E o).toNat, by omega⟩
      = (getObjects E).get ⟨(getObjects E).indexOf o, hlt⟩ := by
    congr 1
    exact Fin.ext heq
  rw [hgoal]
  exact List.indexOf_get hlt

/-! ### Claim C1 -/

/-- C1: on a canvas that is neither a graph-on-parent nor in presentation
mode, after `synchronise` no visual connection remains whose inlet-endpoint
box or outlet-endpoint box refers to an engine object absent from the
engine's canonical object list — every deprecated connection is removed and
no connection the pass adds refers to a deprecated object. -/
theorem C1_no_deprecated_connection_endpoints
    (E : EngineState) (u : Bool) (c c2 : CanvasState) (log2 : List String)
    (hnd : (getObjects E).Nodup)
    (h : synchronise E false false u c = .ok (c2, log2)) :
    ∀ cn ∈ c2.conns,
      isObjectDeprecated (getObjects E) cn.inPtr = false
        ∧ isObjectDeprecated (getObjects E) cn.outPtr = false := by
  rw [synchronise_eq_active] at h
  intro cn hcn
  rcases connLoop_conns_src h cn hcn with hold | ⟨t, _, sb, kb, ha1, ha2, rfl⟩
  · have hconns := (syncPipeline_conns E c).1
    rw [hconns] at hold
    have hs := (List.mem_filter.mp hold).2
    simp only [connSurvives, Bool.and_eq_true, Bool.not_eq_true'] at hs
    exact ⟨hs.1.1.2, hs.1.2⟩
  · obtain ⟨hge1, hlt1, hget1⟩ := arrGet_some_iff.mp ha1
    obtain ⟨hge2, hlt2, hget2⟩ := arrGet_some_iff.mp ha2
    obtain ⟨hN1, _⟩ := getIndex_toNat hge1
    obtain ⟨hN2, _⟩ := getIndex_toNat hge2
    have hlive1 := syncPipeline_live_at E c hnd _ hN1 hlt1
    have hlive2 := syncPipeline_live_at E c hnd _ hN2 hlt2
    rw [hget1] at hlive1
    rw [hget2] at hlive2
    constructor
    · rw [show (mkVConn t sb kb).inPtr = kb.ptr from rfl]
      exact hlive2
    · rw [show (mkVConn t sb kb).outPtr = sb.ptr from rfl]
      exact hlive1

/-- Witness for C1 at the concrete `[10, 20, 30]` scenario. -/
theorem C1_witness :
    isObjectDeprecated (getObjects egEngine) egConn.inPtr = false
      ∧ isObjectDeprecated (getObjects egEngine) egConn.outPtr = false :=
  C1_no_deprecated_connection_endpoints egEngine true egEmpty egAfter []
    (by decide) (by rfl) egConn (by decide)

/-! ### Passive/active box-path agreement and box survival -/

theorem syncBoxStep_congr {E : EngineState} {c d : CanvasState} {o : ObjId}
    (hb : c.boxes = d.boxes) (hn : c.nextBid = d.nextBid) :
    (syncBoxStep E c o).boxes = (syncBoxStep E d o).boxes
      ∧ (syncBoxStep E c o).nextBid = (syncBoxStep E d o).nextBid := by
  unfold syncBoxStep
  rw [hb, hn]
  split <;> exact ⟨rfl, rfl⟩

theorem syncBoxes_boxes_congr {E : EngineState} :
    ∀ {os : List ObjId} {c d : CanvasState}, c.boxes = d.boxes → c.nextBid = d.nextBid →
      (syncBoxes E os c).boxes = (syncBoxes E os d).boxes
        ∧ (syncBoxes E os c).nextBid = (syncBoxes E os d).nextBid := by
  intro os
  induction os with
  | nil => intro c d hb hn; exact ⟨hb, hn⟩
  | cons o os ih =>
    intro c d hb hn
    rw [syncBoxes_cons, syncBoxes_cons]
    obtain ⟨h1, h2⟩ := syncBoxStep_congr (E := E) (o := o) hb hn
    exact ih h1 h2

theorem syncPipelinePassive_boxes (E : EngineState) (c : CanvasState) :
    (syncPipelinePassive E c).boxes = (syncPipeline E c).boxes := by
  unfold syncPipelinePassive syncPipeline sortBoxes
  have hcongr : (syncBoxes E (getObjects E)
        (clearDeletedBoxes (getObjects E) (deselectAll c))).boxes
      = (syncBoxes E (getObjects E)
        (clearDeletedBoxes (getObjects E) (dropDeprecatedConns E (getObjects E)
          (deselectAll c)))).boxes
      ∧ (syncBoxes E (getObjects E)
        (clearDeletedBoxes (getObjects E) (deselectAll c))).nextBid
      = (syncBoxes E (getObjects E)
        (clearDeletedBoxes (getObjects E) (dropDeprecatedConns E (getObjects E)
          (deselectAll c)))).nextBid :=
    syncBoxes_boxes_congr rfl rfl
  simp only [hcongr.1]

theorem syncPipeline_box_survives (E : EngineState) (c : CanvasState) :
    ∀ b ∈ c.boxes, b.gui = false →
      ∃ b2 ∈ (syncPipeline E c).boxes, b2.bid = b.bid ∧ b2.ptr = b.ptr ∧ b2.gui = false := by
  intro b hb hg
  have hkeep : b ∈ (clearDeletedBoxes (getObjects E)
      (dropDeprecatedConns E (getObjects E) (deselectAll c))).boxes := by
    refine List.mem_filter.mpr ⟨hb, ?_⟩
    rw [hg]
    simp
  have hold2 : ∃ b2 ∈ (syncBoxes E (getObjects E)
      (clearDeletedBoxes (getObjects E) (dropDeprecatedConns E (getObjects E)
        (deselectAll c)))).boxes,
      b2.bid = b.bid ∧ b2.ptr = b.ptr ∧ b2.gui = b.gui := syncBoxes_old hkeep
  obtain ⟨b2, hb2, h1, h2, h3⟩ := hold2
  refine ⟨b2, ?_, h1, h2, h3.trans hg⟩
  exact (syncPipeline_perm E c).mem_iff.mpr hb2

/-! ### Claim C2 -/

/-- C2: after `synchronise`, the visual box list is ordered exactly as the
engine's canonical object list — the canonical objects occupy the first
positions in canonical order, and the whole list is sorted by the canonical
position key the re-sort uses. -/
theorem C2_boxes_in_canonical_order
    (E : EngineState) (u : Bool) (c c2 : CanvasState) (log2 : List String)
    (hnd : (getObjects E).Nodup)
    (hU : ∀ o ∈ getObjects E, c.boxes.countP (fun b => b.ptr == some o) ≤ 1)
    (h : synchronise E false false u c = .ok (c2, log2)) :
    (getObjects E).length ≤ c2.boxes.length
      ∧ (∀ j (hjN : j < (getObjects E).length) (hj : j < c2.boxes.length),
          (c2.boxes.get ⟨j, hj⟩).ptr = some ((getObjects E).get ⟨j, hjN⟩))
      ∧ c2.boxes.Pairwise
          (fun b1 b2 => sortKey (getObjects E) b1 ≤ sortKey (getObjects E) b2) := by
  rw [synchronise_eq_active] at h
  obtain ⟨hbox, _, _⟩ := connLoop_state h
  rw [hbox]
  exact ⟨syncPipeline_length E c hnd, syncPipeline_pos_ptr E c hnd hU,
    syncPipeline_sorted E c⟩

/-- Witness for C2: on the `[10, 20, 30]` scenario the second box wraps the
second canonical object. -/
theorem C2_witness :
    (getObjects egEngine).length ≤ egAfter.boxes.length
      ∧ (egAfter.boxes.get ⟨1, by decide⟩).ptr = some ((getObjects egEngine).get ⟨1, by decide⟩) :=
  ⟨(C2_boxes_in_canonical_order egEngine true egEmpty egAfter []
      (by decide) (by decide) (by rfl)).1,
    (C2_boxes_in_canonical_order egEngine true egEmpty egAfter []
      (by decide) (by decide) (by rfl)).2.1 1 (by decide) (by decide)⟩

/-! ### Claim C7 -/

/-- C7: for every live engine object, at most one visual box references it:
the invariant is preserved by `synchronise` in every mode, because the
add-or-update pass creates a box only when no existing box points to the
object. -/
theorem C7_at_most_one_box_per_object
    (E : EngineState) (g p u : Bool) (c c2 : CanvasState) (log2 : List String)
    (hU : ∀ o ∈ getObjects E, c.boxes.countP (fun b => b.ptr == some o) ≤ 1)
    (h : synchronise E g p u c = .ok (c2, log2)) :
    ∀ o ∈ getObjects E, c2.boxes.countP (fun b => b.ptr == some o) ≤ 1 := by
  by_cases hgp : (g || p) = true
  · rw [synchronise_eq_passive E u c hgp] at h
    obtain ⟨h1, _⟩ := Prod.mk.injEq .. ▸ (Except.ok.injEq .. ▸ h)
    rw [← h1]
    intro o ho
    rw [syncPipelinePassive_boxes]
    exact syncPipeline_countP_le E c hU o ho
  · have hg : g = false := by
      cases g
      · rfl
      · exact absurd (by simp) hgp
    have hp : p = false := by
      cases p
      · rfl
      · exact absurd (by simp [hg]) (hg ▸ hgp)
    subst hg
    subst hp
    rw [synchronise_eq_active] at h
    obtain ⟨hbox, _, _⟩ := connLoop_state h
    rw [hbox]
    exact syncPipeline_countP_le E c hU

/-- Witness for C7. -/
theorem C7_witness : egAfter.boxes.countP (fun b => b.ptr == some 20) ≤ 1 :=
  C7_at_most_one_box_per_object egEngine false false true egEmpty egAfter []
    (by decide) (by rfl) 20 (by decide)

/-! ### Claim C10 -/

/-- C10: the box-removal pass touches only boxes whose `gui` member is
non-null; a box with a null `gui` survives `synchronise` (in every mode)
with its identity, pointer and gui-lessness intact, even when its engine
object is deprecated. -/
theorem C10_null_gui_boxes_survive
    (E : EngineState) (g p u : Bool) (c c2 : CanvasState) (log2 : List String)
    (h : synchronise E g p u c = .ok (c2, log2)) :
    ∀ b ∈ c.boxes, b.gui = false →
      ∃ b2 ∈ c2.boxes, b2.bid = b.bid ∧ b2.ptr = b.ptr ∧ b2.gui = false := by
  by_cases hgp : (g || p) = true
  · rw [synchronise_eq_passive E u c hgp] at h
    obtain ⟨h1, _⟩ := Prod.mk.injEq .. ▸ (Except.ok.injEq .. ▸ h)
    rw [← h1]
    intro b hb hg2
    rw [syncPipelinePassive_boxes]
    exact syncPipeline_box_survives E c b hb hg2
  · have hg : g = false := by
      cases g
      · rfl
      · exact absurd (by simp) hgp
    have hp : p = false := by
      cases p
      · rfl
      · exact absurd (by simp [hg]) (hg ▸ hgp)
    subst hg
    subst hp
    rw [synchronise_eq_active] at h
    obtain ⟨hbox, _, _⟩ := connLoop_state h
    rw [hbox]
    exact syncPipeline_box_survives E c

/-- Witness for C10: a gui-less box wrapping an object absent from the
engine (`99`) survives synchronising against `egEngine`. -/
theorem C10_witness :
    ∃ b2 ∈ egStaleAfter.boxes, b2.bid = 7 ∧ b2.ptr = some 99 ∧ b2.gui = false :=
  C10_null_gui_boxes_survive egEngine false false true egStale egStaleAfter []
    (by rfl) { bid := 7, ptr := some 99, gui := false, numInputs := 0, numOutputs := 0 }
    (by decide) (by decide)

/-! ### Claim C3 -/

/-- C3: `synchronise` is idempotent — a second call with no intervening
engine mutation reproduces the same canvas state (so the same box set and
connection set, with no duplicates) and the same error log. -/
theorem C3_synchronise_idempotent
    (E : EngineState) (u u2 : Bool) (c c1 : CanvasState) (log1 : List String)
    (hnd : (getObjects E).Nodup)
    (hU : ∀ o ∈ getObjects E, c.boxes.countP (fun b => b.ptr == some o) ≤ 1)
    (h : synchronise E false false u c = .ok (c1, log1)) :
    synchronise E false false u2 c1 = .ok (c1, log1) := by
  rw [synchronise_eq_active] at h
  obtain ⟨hbox, hsel, _⟩ := connLoop_state h
  have hsel0 : c1.selection = [] := by
    rw [hsel]
    exact (syncPipeline_conns E c).2
  obtain ⟨dl, hdl, hrr⟩ := connLoop_refix h
  -- every connection of the result survives the next drop pass
  have hconns_all : ∀ cn ∈ c1.conns, connSurvives E (getObjects E) cn = true := by
    intro cn hcn
    rcases connLoop_conns_src h cn hcn with hold | ⟨t, ht, sb, kb, ha1, ha2, rfl⟩
    · rw [(syncPipeline_conns E c).1] at hold
      exact (List.mem_filter.mp hold).2
    · obtain ⟨hge1, hlt1, hget1⟩ := arrGet_some_iff.mp ha1
      obtain ⟨hge2, hlt2, hget2⟩ := arrGet_some_iff.mp ha2
      obtain ⟨hN1, hO1⟩ := getIndex_toNat hge1
      obtain ⟨hN2, hO2⟩ := getIndex_toNat hge2
      have hptr1 : sb.ptr = some t.inobj := by
        have hpp := syncPipeline_pos_ptr E c hnd hU _ hN1 hlt1
        rw [hget1] at hpp
        rw [hpp, hO1]
      have hptr2 : kb.ptr = some t.outobj := by
        have hpp := syncPipeline_pos_ptr E c hnd hU _ hN2 hlt2
        rw [hget2] at hpp
        rw [hpp, hO2]
      have hm1 : t.inobj ∈ getObjects E := getIndex_nonneg_mem hge1
      have hm2 : t.outobj ∈ getObjects E := getIndex_nonneg_mem hge2
      have hic : isconnected E (some t.inobj) t.outno (some t.outobj) t.inno = true := by
        simp only [isconnected]
        exact List.any_eq_true.mpr ⟨t, ht, by simp⟩
      simp [connSurvives, mkVConn, hptr1, hptr2, isObjectDeprecated_some_of_mem hm1,
        isObjectDeprecated_some_of_mem hm2, hic]
  -- stage identities for the second run
  have hstage1 : deselectAll c1 = c1 := deselectAll_id hsel0
  have hstage2 : dropDeprecatedConns E (getObjects E) c1 = c1 :=
    dropDeprecatedConns_id hconns_all
  have hstage3 : clearDeletedBoxes (getObjects E) c1 = c1 := by
    refine clearDeletedBoxes_id ?_
    intro b hb
    rw [hbox] at hb
    exact syncPipeline_guiLive E c b hb
  have hstage4 : syncBoxes E (getObjects E) c1 = c1 := by
    refine syncBoxes_id ?_ ?_
    · intro o ho
      obtain ⟨b, hb, hp⟩ := syncPipeline_exists E c o ho
      exact ⟨b, by rw [hbox]; exact hb, hp⟩
    · intro o ho b hb hp
      rw [hbox] at hb
      exact syncPipeline_ports E c hnd hU o ho b hb hp
  have hstage5 : sortBoxes (getObjects E) c1 = c1 := by
    refine sortBoxes_eq_self ?_
    rw [hbox]
    exact syncPipeline_sorted E c
  rw [synchronise_eq_active]
  have hpipe : syncPipeline E c1 = c1 := by
    unfold syncPipeline
    rw [hstage1, hstage2, hstage3, hstage4, hstage5]
  rw [hpipe, hrr [], hdl]

/-- Witness for C3: synchronising the already-synchronised `[10, 20, 30]`
canvas is a no-op. -/
theorem C3_witness : synchronise egEngine false false true egAfter = .ok (egAfter, []) :=
  C3_synchronise_idempotent egEngine true true egEmpty egAfter []
    (by decide) (by decide) (by rfl)

/-! ### Claim C4 -/

theorem syncPipelinePassive_selection (E : EngineState) (c : CanvasState) :
    (syncPipelinePassive E c).selection = [] := by
  unfold syncPipelinePassive
  obtain ⟨_, h2⟩ := syncBoxes_conns E (getObjects E)
    (clearDeletedBoxes (getObjects E) (deselectAll c))
  exact h2.trans rfl

/-- C4 counterexample: box 0 is selected and wraps live object 10, yet after
`synchronise` it is no longer selected — the selection does not survive even
for live objects, refuting the claim that `synchronise` preserves the
selection of live elements. -/
theorem C4_counterexample :
    0 ∈ egSelected.selection
      ∧ (egSelected.boxes.get ⟨0, by decide⟩).bid = 0
      ∧ (egSelected.boxes.get ⟨0, by decide⟩).ptr = some 10
      ∧ 10 ∈ getObjects egEngine
      ∧ synchronise egEngine false false true egSelected = .ok (egAfter, [])
      ∧ 0 ∉ egAfter.selection :=
  ⟨by decide, rfl, rfl, by decide, by rfl, by decide⟩

/-- C4 (amended): `synchronise` starts with an explicit `deselectAll()`, so
after any `synchronise` call (in any mode) the selection set is empty —
selection is discarded wholesale, not merely pruned of destroyed elements. -/
theorem C4_amended_synchronise_clears_selection
    (E : EngineState) (g p u : Bool) (c c2 : CanvasState) (log2 : List String)
    (h : synchronise E g p u c = .ok (c2, log2)) :
    c2.selection = [] := by
  by_cases hgp : (g || p) = true
  · rw [synchronise_eq_passive E u c hgp] at h
    obtain ⟨h1, _⟩ := Prod.mk.injEq .. ▸ (Except.ok.injEq .. ▸ h)
    rw [← h1]
    exact syncPipelinePassive_selection E c
  · have hg : g = false := by
      cases g
      · rfl
      · exact absurd (by simp) hgp
    have hp : p = false := by
      cases p
      · rfl
      · exact absurd (by simp [hg]) (hg ▸ hgp)
    subst hg
    subst hp
    rw [synchronise_eq_active] at h
    obtain ⟨_, hsel, _⟩ := connLoop_state h
    rw [hsel]
    exact (syncPipeline_conns E c).2

/-- Witness for the amended C4. -/
theorem C4_witness : egAfter.selection = [] :=
  C4_amended_synchronise_clears_selection egEngine false false true egSelected
    egAfter [] (by rfl)

/-! ### Claim C5 -/

/-- C5: `createConnection` validates connectability first and reports its
result: with non-null arguments and a live patch pointer the returned flag
equals the `libpd_canconnect` verdict, the engine connection list is
extended exactly when the check succeeds and is untouched when it fails;
with a null source, sink, or patch pointer the call returns false and
changes nothing. -/
theorem C5_createConnection_validates_first
    (E : EngineState) (hasPtr : Bool) (src sink : Option ObjId) (nout nin : Nat) :
    (∀ s k, src = some s → sink = some k → hasPtr = true →
      (createConnection E hasPtr src sink nout nin).1 = E.canconnect s nout k nin
        ∧ ((createConnection E hasPtr src sink nout nin).1 = true →
            (createConnection E hasPtr src sink nout nin).2.conns
              = E.conns ++ [⟨nin, s, nout, k⟩])
        ∧ ((createConnection E hasPtr src sink nout nin).1 = false →
            (createConnection E hasPtr src sink nout nin).2.conns = E.conns))
    ∧ ((src = none ∨ sink = none ∨ hasPtr = false) →
        (createConnection E hasPtr src sink nout nin).1 = false
          ∧ (createConnection E hasPtr src sink nout nin).2.conns = E.conns) := by
  constructor
  · rintro s k rfl rfl rfl
    simp only [createConnection]
    by_cases hc : E.canconnect s nout k nin = true
    · simp [hc]
    · rw [Bool.not_eq_true] at hc
      simp [hc]
  · intro hnull
    rcases src with _ | s
    · exact ⟨rfl, rfl⟩
    · rcases sink with _ | k
      · exact ⟨rfl, rfl⟩
      · rcases hnull with h | h | h
        · exact absurd h (by simp)
        · exact absurd h (by simp)
        · subst h
          exact ⟨rfl, rfl⟩

/-- Witness for C5: a valid request reports the check's verdict; a null
source is rejected without touching the connection list. -/
theorem C5_witness :
    (createConnection egEngine true (some 20) (some 30) 0 0).1
        = egEngine.canconnect 20 0 30 0
      ∧ (createConnection egEngine true none (some 30) 0 0).1 = false
      ∧ (createConnection egEngine true none (some 30) 0 0).2.conns = egEngine.conns :=
  ⟨((C5_createConnection_validates_first egEngine true (some 20) (some 30) 0 0).1
      20 30 rfl rfl rfl).1,
    ((C5_createConnection_validates_first egEngine true none (some 30) 0 0).2
      (Or.inl rfl)).1,
    ((C5_createConnection_validates_first egEngine true none (some 30) 0 0).2
      (Or.inl rfl)).2⟩

/-! ### Claim C6 -/

/-- C6 (code bug): a connection tuple whose source resolves to the `-1`
sentinel is not skipped with a logged error as claimed — the pass takes
`boxes[srcno]->edges` before the range guard runs, and the guard never
tests negative indices, so `synchronise` hits a null/out-of-bounds access
(`boxes[-1]` is null under JUCE's bounds-checked `operator[]`) instead of
continuing.  Evaluated at the failing input: an engine whose tuple names
the info-parent node `77` as source. -/
theorem C6_bug_unguarded_index_access :
    getIndex egInfoEngine 77 = -1
      ∧ synchronise egInfoEngine false false true egEmpty
          = .error SyncErr.nullBoxAccess :=
  ⟨by rfl, by rfl⟩

/-! ### Claim C8 -/

/-- C8: `getIndex` returns exactly the position of the identity in the
`getObjects()` enumeration (both walks skip the info-parent bookkeeping
node), and the `-1` sentinel for an identity that enumeration does not
contain (including the info-parent itself). -/
theorem C8_getIndex_matches_getObjects (E : EngineState) (o : ObjId) :
    (o ∈ getObjects E → getIndex E o = ((getObjects E).indexOf o : Int))
      ∧ (o ∉ getObjects E → getIndex E o = -1) :=
  ⟨fun h => getIndex_of_mem h, fun h => getIndex_of_not_mem h⟩

/-- Witness for C8: object 30 sits at its `getObjects` position even with an
info-parent in the list; the info-parent itself resolves to `-1`. -/
theorem C8_witness :
    getIndex egInfoEngine 30 = ((getObjects egInfoEngine).indexOf 30 : Int)
      ∧ getIndex egInfoEngine 77 = -1 :=
  ⟨(C8_getIndex_matches_getObjects egInfoEngine 30).1 (by decide),
    (C8_getIndex_matches_getObjects egInfoEngine 77).2 (by decide)⟩

/-! ### Claim C9 -/

/-- C9 counterexample: a backspace press on an active, unlocked canvas is
not consumed, but it is also not forwarded to the engine's key path — the
canvas makes no engine call at all, refuting the claim that these keys are
"passed on to the engine's own key-handling path". -/
theorem C9_counterexample :
    keyPressed true false [some 10] false Key.backspace = (false, []) := rfl

/-- C9 (amended): each arrow key nudges the whole selection by one fixed
±10 step through a single `moveObjects` call and is consumed; backspace,
delete, escape, return, tab, page-up, page-down (and home) are neither
consumed nor sent to the engine — the handler deliberately ignores them so
pd takes no action; every other key is forwarded to `patch.keyPress` and not
consumed. -/
theorem C9_amended_key_handling (s : List (Option ObjId)) (shift : Bool) :
    keyPressed true false s shift Key.left = (true, [EngineCall.moveObjects s (-10) 0])
      ∧ keyPressed true false s shift Key.right = (true, [EngineCall.moveObjects s 10 0])
      ∧ keyPressed true false s shift Key.up = (true, [EngineCall.moveObjects s 0 (-10)])
      ∧ keyPressed true false s shift Key.down = (true, [EngineCall.moveObjects s 0 10])
      ∧ keyPressed true false s shift Key.backspace = (false, [])
      ∧ keyPressed true false s shift Key.del = (false, [])
      ∧ keyPressed true false s shift Key.escape = (false, [])
      ∧ keyPressed true false s shift Key.ret = (false, [])
      ∧ keyPressed true false s shift Key.tab = (false, [])
      ∧ keyPressed true false s shift Key.pageUp = (false, [])
      ∧ keyPressed true false s shift Key.pageDown = (false, [])
      ∧ keyPressed true false s shift Key.home = (false, [])
      ∧ ∀ code, keyPressed true false s shift (Key.other code)
          = (false, [EngineCall.keyPress (Key.other code) shift]) :=
  ⟨rfl, rfl, rfl, rfl, rfl, rfl, rfl, rfl, rfl, rfl, rfl, rfl, fun _ => rfl⟩

end PlugData
